import Mathlib

/-!
# NuSDFlashSimBlockDevice: flash emulation over an SD sector device

Shallow embedding of `NuSDFlashSimBlockDevice.cpp` / `.h`.

* Bytes are natural numbers (a `uint8_t` is a `Nat` below 256), memory regions
  (the SD card, the static `dma_buff`, caller buffers) are maps `Nat → Nat`
  from a byte index to a byte.
* `uint32_t` and `uint64_t` arithmetic is arithmetic on `Nat` reduced modulo
  `2 ^ 32` and `2 ^ 64` at every conversion and operation, as the C++ does
  on the 32-bit target (`bd_addr_t` and `bd_size_t` are `uint64_t`).
* The base class `NuSDBlockDevice` is not part of the sources; its `read` and
  `program` are modelled from the specification's SectorDevice.
-/

namespace NuSDFlashSim

/-! ## Constants and machine arithmetic -/

/-- SD card sector size (`#define SDH_SECTOR_SIZE 512`). -/
def SDH_SECTOR_SIZE : Nat := 512

/-- Size of the static staging buffer (`#define DMA_BUFF_SIZE SDH_SECTOR_SIZE`). -/
def DMA_BUFF_SIZE : Nat := SDH_SECTOR_SIZE

/-- Success status of a block device call. -/
def BD_ERROR_OK : Int := 0

/-- Conversion to `uint32_t`. -/
def to_u32 (n : Nat) : Nat := n % 2 ^ 32

/-- Conversion to `uint64_t` (`bd_addr_t`, `bd_size_t`). -/
def to_u64 (n : Nat) : Nat := n % 2 ^ 64

/-- Subtraction of `uint32_t` values. -/
def sub_u32 (a b : Nat) : Nat := (a % 2 ^ 32 + (2 ^ 32 - b % 2 ^ 32)) % 2 ^ 32

/-- Multiplication of `uint32_t` values. -/
def mul_u32 (a b : Nat) : Nat := (a * b) % 2 ^ 32

/-- Addition of `uint64_t` values. -/
def add_u64 (a b : Nat) : Nat := (a + b) % 2 ^ 64

/-- Subtraction of `uint64_t` values. -/
def sub_u64 (a b : Nat) : Nat := (a % 2 ^ 64 + (2 ^ 64 - b % 2 ^ 64)) % 2 ^ 64

/-- Multiplication of `uint64_t` values. -/
def mul_u64 (a b : Nat) : Nat := (a * b) % 2 ^ 64

/-- Largest object size on the 32-bit target (`SIZE_MAX`): a caller buffer
addressed through a `uint8_t *` holds at most this many bytes. -/
def SIZE_MAX : Nat := 2 ^ 32 - 1

/-! ## Configuration -/

/-- Compile-time configuration: the two `MBED_CONF_NUSD_FLASHSIM_*` macros,
together with the `static_assert` that the file places on the erase unit. -/
structure Config where
  /-- Program attribute (`NU_SDH_FLASH_PROG_ATR`): 0 does not program to 1. -/
  NU_SDH_FLASH_PROG_ATR : Bool
  /-- Erase unit in bytes (`NU_SDH_FLASH_SECTOR_SIZE`). -/
  NU_SDH_FLASH_SECTOR_SIZE : Nat
  /-- The source line
  `static_assert((NU_SDH_FLASH_SECTOR_SIZE % SDH_SECTOR_SIZE) == 0, ...)`. -/
  static_assert_flash_sector : NU_SDH_FLASH_SECTOR_SIZE % SDH_SECTOR_SIZE = 0

/-- Default configuration of the scenario: polarity on, erase unit 4096. -/
def default_config : Config := ⟨true, 4096, by decide⟩

/-- Same erase unit with the program attribute off (plain overwrite). -/
def overwrite_config : Config := ⟨false, 4096, by decide⟩

/-! ## State -/

/-- One call of the underlying sector device, as recorded in the trace. -/
structure DevCall where
  /-- The call is `NuSDBlockDevice::program` (otherwise `NuSDBlockDevice::read`). -/
  is_program : Bool
  /-- Byte address passed to the device. -/
  addr : Nat
  /-- Byte length passed to the device. -/
  size : Nat
  /-- Status the device returned. -/
  err : Int
deriving DecidableEq, Repr

/-- State of the emulated device and of its environment. -/
structure Dev where
  /-- Contents of the SD card, byte by byte. -/
  card : Nat → Nat
  /-- The static staging buffer `dma_buff`; the array is its first
  `DMA_BUFF_SIZE` entries. -/
  dma_buff : Nat → Nat
  /-- Hold count of the mutex `_lock` (0 means not held). -/
  _lock : Nat
  /-- Calls of the sector device made so far, oldest first. -/
  trace : List DevCall
  /-- Status that the sector device returns on its k-th call (counted from 0
  over the whole life of the device). -/
  sd_status : Nat → Int

/-- Acquire the mutex: `_lock.lock()`. -/
def Dev.lock (s : Dev) : Dev := { s with _lock := s._lock + 1 }

/-- Release the mutex: `_lock.unlock()`. -/
def Dev.unlock (s : Dev) : Dev := { s with _lock := s._lock - 1 }

/-- The sector device never fails. -/
def never_fails (s : Dev) : Prop := ∀ k, s.sd_status k = BD_ERROR_OK

/-! ## Memory primitives -/

/-- Bytes `dpos .. dpos + n` of `dst` are replaced by bytes `spos ..` of `src`
(`memcpy(dst + dpos, src + spos, n)`). -/
def memcpy (dst : Nat → Nat) (dpos : Nat) (src : Nat → Nat) (spos n : Nat) : Nat → Nat :=
  fun j => if dpos ≤ j ∧ j < dpos + n then src (spos + (j - dpos)) else dst j

/-- Bytes `dpos .. dpos + n` of `dst` are set to `v` (`memset(dst + dpos, v, n)`). -/
def memset (dst : Nat → Nat) (dpos v n : Nat) : Nat → Nat :=
  fun j => if dpos ≤ j ∧ j < dpos + n then v else dst j

/-- The merge loop of `program` under `NU_SDH_FLASH_PROG_ATR`:
`while (b_pos2 < b_end2) { *dma_buff_pos &= *b_pos2; dma_buff_pos++; b_pos2++; }`
with `n = b_end2 - b_pos2` iterations left. -/
def and_loop (b : Nat → Nat) : Nat → Nat → Nat → (Nat → Nat) → (Nat → Nat)
  | 0, _, _, buf => buf
  | n + 1, dma_buff_pos, b_pos2, buf =>
      and_loop b n (dma_buff_pos + 1) (b_pos2 + 1)
        (Function.update buf dma_buff_pos (buf dma_buff_pos &&& b b_pos2))

/-! ## The sector device (base class) -/

/-- Modelled from the spec: `NuSDBlockDevice::read`, the SectorDevice read of the
base class, which is not part of the sources. It returns the status that the
environment schedules for this call; on success the `size` bytes of the card from
`addr` are placed at the start of `dma_buff` (the only buffer the emulator ever
passes), on failure nothing is transferred. The call is appended to the trace. -/
def NuSDBlockDevice.read (s : Dev) (addr size : Nat) : Int × Dev :=
  let err := s.sd_status s.trace.length
  let s1 := { s with trace := s.trace ++ [⟨false, addr, size, err⟩] }
  if err ≠ BD_ERROR_OK then (err, s1)
  else (err, { s1 with dma_buff := memcpy s.dma_buff 0 s.card addr size })

/-- Modelled from the spec: `NuSDBlockDevice::program`, the SectorDevice write of
the base class, which is not part of the sources. It returns the status that the
environment schedules for this call; on success the first `size` bytes of
`dma_buff` are stored on the card from `addr`, on failure the card is unchanged.
The call is appended to the trace. -/
def NuSDBlockDevice.program (s : Dev) (addr size : Nat) : Int × Dev :=
  let err := s.sd_status s.trace.length
  let s1 := { s with trace := s.trace ++ [⟨true, addr, size, err⟩] }
  if err ≠ BD_ERROR_OK then (err, s1)
  else (err, { s1 with card := memcpy s.card addr s.dma_buff 0 size })

/-! ## Window arithmetic shared by `program` and `read` -/

/-- Source: `uint32_t sector_offset = addr_pos % SDH_SECTOR_SIZE;`. -/
def sector_offset (addr_pos : Nat) : Nat := to_u32 (addr_pos % SDH_SECTOR_SIZE)

/-- Source: `uint32_t todo_size = DMA_BUFF_SIZE - sector_offset;`
`todo_size = (todo_size >= rmn) ? rmn : todo_size;`. -/
def todo_size (addr_pos rmn : Nat) : Nat :=
  let todo_size := sub_u32 DMA_BUFF_SIZE (sector_offset addr_pos)
  to_u32 (if todo_size ≥ rmn then rmn else todo_size)

/-- Source: `uint32_t begin_sector = addr_pos / SDH_SECTOR_SIZE;`. -/
def begin_sector (addr_pos : Nat) : Nat := to_u32 (addr_pos / SDH_SECTOR_SIZE)

/-- Source:
`uint32_t end_sector = (addr_pos + todo_size - 1 + SDH_SECTOR_SIZE) / SDH_SECTOR_SIZE;`
(the sum is formed in `uint64_t`, the quotient is converted to `uint32_t`). -/
def end_sector (addr_pos rmn : Nat) : Nat :=
  to_u32 (add_u64 (sub_u64 (add_u64 addr_pos (todo_size addr_pos rmn)) 1) SDH_SECTOR_SIZE
    / SDH_SECTOR_SIZE)

/-- Byte address passed to the sector device: `begin_sector * SDH_SECTOR_SIZE`,
a `uint32_t` product. -/
def window_addr (addr_pos : Nat) : Nat := mul_u32 (begin_sector addr_pos) SDH_SECTOR_SIZE

/-- Byte length passed to the sector device:
`(end_sector - begin_sector) * SDH_SECTOR_SIZE`, in `uint32_t`. -/
def window_len (addr_pos rmn : Nat) : Nat :=
  mul_u32 (sub_u32 (end_sector addr_pos rmn) (begin_sector addr_pos)) SDH_SECTOR_SIZE

/-- Every window of a non-empty remainder takes at least one byte; this is what
makes the `while (rmn)` loops terminate. -/
theorem todo_size_pos (addr_pos rmn : Nat) (h : rmn ≠ 0) : 0 < todo_size addr_pos rmn := by
  unfold todo_size sector_offset sub_u32 to_u32 DMA_BUFF_SIZE SDH_SECTOR_SIZE
  simp only []
  split <;> omega

/-- A product with the erase unit, reduced to `uint64_t`, is sector aligned. -/
theorem mul_u64_erase_unit_aligned (cfg : Config) (q : Nat) :
    mul_u64 q cfg.NU_SDH_FLASH_SECTOR_SIZE % SDH_SECTOR_SIZE = 0 := by
  have h := cfg.static_assert_flash_sector
  unfold mul_u64
  unfold SDH_SECTOR_SIZE at *
  have h2 : (512 : Nat) ∣ 2 ^ 64 := ⟨2 ^ 55, by norm_num⟩
  rw [Nat.mod_mod_of_dvd _ h2, Nat.mul_mod, h]
  simp

/-! ## program -/

/-- The `while (rmn)` loop of `program`. The result is
`(returned, err, state)`: `returned` tells that a `return err;` inside the loop
body was executed (the function is left at that point). `b_pos` is the index
into the caller buffer; `rmn -= todo_size` cannot wrap since `todo_size ≤ rmn`. -/
def program_loop (cfg : Config) (b : Nat → Nat) (err : Int) (b_pos addr_pos rmn : Nat)
    (s : Dev) : Bool × Int × Dev :=
  if hr : rmn = 0 then (false, err, s)
  else
    let r := NuSDBlockDevice.read s (window_addr addr_pos) (window_len addr_pos rmn)
    if r.1 ≠ BD_ERROR_OK then (true, r.1, r.2)
    else
      let s1 := r.2
      let merged :=
        if cfg.NU_SDH_FLASH_PROG_ATR then
          and_loop b (todo_size addr_pos rmn) (sector_offset addr_pos) b_pos s1.dma_buff
        else
          memcpy s1.dma_buff (sector_offset addr_pos) b b_pos (todo_size addr_pos rmn)
      let w := NuSDBlockDevice.program { s1 with dma_buff := merged }
        (window_addr addr_pos) (window_len addr_pos rmn)
      if w.1 ≠ BD_ERROR_OK then (true, w.1, w.2)
      else
        program_loop cfg b w.1 (b_pos + todo_size addr_pos rmn)
          (add_u64 addr_pos (todo_size addr_pos rmn)) (rmn - todo_size addr_pos rmn) w.2
termination_by rmn
decreasing_by
  have h1 := todo_size_pos addr_pos rmn hr
  omega

/-- Source: `int NuSDFlashSimBlockDevice::program(const void *b, bd_addr_t addr, bd_size_t size)`.
The caller buffer is the map `b`; the result is the status and the new state. -/
def program (cfg : Config) (b : Nat → Nat) (addr size : Nat) (s : Dev) : Int × Dev :=
  let s0 := s.lock
  let r := program_loop cfg b BD_ERROR_OK 0 addr size s0
  if r.1 then (r.2.1, r.2.2)
  else (r.2.1, r.2.2.unlock)

/-! ## read -/

/-- The `while (rmn)` loop of `read`; `out` is the caller buffer. The result is
`(returned, err, out, state)` with `returned` as in `program_loop`. -/
def read_loop (out : Nat → Nat) (err : Int) (b_pos addr_pos rmn : Nat) (s : Dev) :
    Bool × Int × (Nat → Nat) × Dev :=
  if hr : rmn = 0 then (false, err, out, s)
  else
    let r := NuSDBlockDevice.read s (window_addr addr_pos) (window_len addr_pos rmn)
    if r.1 ≠ BD_ERROR_OK then (true, r.1, out, r.2)
    else
      read_loop (memcpy out b_pos r.2.dma_buff (sector_offset addr_pos) (todo_size addr_pos rmn))
        r.1 (b_pos + todo_size addr_pos rmn)
        (add_u64 addr_pos (todo_size addr_pos rmn)) (rmn - todo_size addr_pos rmn) r.2
termination_by rmn
decreasing_by
  have h1 := todo_size_pos addr_pos rmn hr
  omega

/-- Source: `int NuSDFlashSimBlockDevice::read(void *b, bd_addr_t addr, bd_size_t size)`.
The result is the status, the caller buffer after the call and the new state. -/
def read (out : Nat → Nat) (addr size : Nat) (s : Dev) : Int × (Nat → Nat) × Dev :=
  let s0 := s.lock
  let r := read_loop out BD_ERROR_OK 0 addr size s0
  if r.1 then (r.2.1, r.2.2.1, r.2.2.2)
  else (r.2.1, r.2.2.1, r.2.2.2.unlock)

/-! ## erase -/

/-- Loop invariant that the `static_assert` on the erase unit gives the `for`
loop of `erase`: both bounds are sector aligned `uint64_t` values. -/
def erase_bounds (addr_pos addr_end : Nat) : Prop :=
  addr_pos % SDH_SECTOR_SIZE = 0 ∧ addr_end % SDH_SECTOR_SIZE = 0 ∧ addr_end < 2 ^ 64

/-- The loop `for (; addr_pos < addr_end; addr_pos += SDH_SECTOR_SIZE)` of `erase`.
The result is `(returned, err, state)` with `returned` as in `program_loop`. -/
def erase_loop (err : Int) (addr_pos addr_end : Nat) (h : erase_bounds addr_pos addr_end)
    (s : Dev) : Bool × Int × Dev :=
  if hlt : addr_pos < addr_end then
    let w := NuSDBlockDevice.program s addr_pos SDH_SECTOR_SIZE
    if w.1 ≠ BD_ERROR_OK then (true, w.1, w.2)
    else
      erase_loop w.1 (add_u64 addr_pos SDH_SECTOR_SIZE) addr_end
        (by
          unfold erase_bounds add_u64 SDH_SECTOR_SIZE at *
          omega) w.2
  else (false, err, s)
termination_by addr_end - addr_pos
decreasing_by
  unfold erase_bounds add_u64 SDH_SECTOR_SIZE at *
  omega

/-- Source: `bd_addr_t addr_pos = addr / NU_SDH_FLASH_SECTOR_SIZE * NU_SDH_FLASH_SECTOR_SIZE;`. -/
def erase_addr_pos (cfg : Config) (addr : Nat) : Nat :=
  mul_u64 (addr / cfg.NU_SDH_FLASH_SECTOR_SIZE) cfg.NU_SDH_FLASH_SECTOR_SIZE

/-- Source: `bd_addr_t addr_end = (addr_pos + size + NU_SDH_FLASH_SECTOR_SIZE - 1)`
`/ NU_SDH_FLASH_SECTOR_SIZE * NU_SDH_FLASH_SECTOR_SIZE;` where `addr_pos` is the
rounded start computed on the line before. -/
def erase_addr_end (cfg : Config) (addr size : Nat) : Nat :=
  mul_u64
    (sub_u64 (add_u64 (add_u64 (erase_addr_pos cfg addr) size) cfg.NU_SDH_FLASH_SECTOR_SIZE) 1
      / cfg.NU_SDH_FLASH_SECTOR_SIZE)
    cfg.NU_SDH_FLASH_SECTOR_SIZE

/-- Source: `int NuSDFlashSimBlockDevice::erase(bd_addr_t addr, bd_size_t size)`. -/
def erase (cfg : Config) (addr size : Nat) (s : Dev) : Int × Dev :=
  let s0 := s.lock
  let s1 := { s0 with dma_buff := memset s0.dma_buff 0 0xFF SDH_SECTOR_SIZE }
  let r := erase_loop BD_ERROR_OK (erase_addr_pos cfg addr) (erase_addr_end cfg addr size)
    ⟨mul_u64_erase_unit_aligned cfg _, mul_u64_erase_unit_aligned cfg _,
      Nat.mod_lt _ (by norm_num)⟩ s1
  if r.1 then (r.2.1, r.2.2)
  else (r.2.1, r.2.2.unlock)

/-! ## Geometry -/

/-- Source: `bd_size_t NuSDFlashSimBlockDevice::get_read_size() const`. -/
def get_read_size : Nat := 1

/-- Source: `bd_size_t NuSDFlashSimBlockDevice::get_program_size() const`. -/
def get_program_size : Nat := 1

/-- Source: `bd_size_t NuSDFlashSimBlockDevice::get_erase_size() const`. -/
def get_erase_size (cfg : Config) : Nat := cfg.NU_SDH_FLASH_SECTOR_SIZE

/-- Source: `bd_size_t NuSDFlashSimBlockDevice::get_erase_size(bd_addr_t addr) const`;
the argument is not used. -/
def get_erase_size_at (cfg : Config) (_addr : Nat) : Nat := cfg.NU_SDH_FLASH_SECTOR_SIZE

/-! ## Specification vocabulary -/

/-- The expression `floor(addr / EraseUnit) * EraseUnit` over the integers. -/
def unit_floor (cfg : Config) (addr : Nat) : Nat :=
  addr / cfg.NU_SDH_FLASH_SECTOR_SIZE * cfg.NU_SDH_FLASH_SECTOR_SIZE

/-- The expression `ceil(x / EraseUnit) * EraseUnit` over the integers. -/
def unit_ceil (cfg : Config) (x : Nat) : Nat :=
  (x + cfg.NU_SDH_FLASH_SECTOR_SIZE - 1) / cfg.NU_SDH_FLASH_SECTOR_SIZE
    * cfg.NU_SDH_FLASH_SECTOR_SIZE

/-- Sector device calls made between the state `s` and the later state `t`. -/
def calls_made (s t : Dev) : List DevCall := t.trace.drop s.trace.length

/-- The recorded status of every call in `calls`, made from the state `s` on, is
the status the sector device had scheduled for that call. -/
def calls_follow_schedule (s : Dev) (calls : List DevCall) : Prop :=
  ∀ (k : Nat) (hk : k < calls.length),
    (calls.get ⟨k, hk⟩).err = s.sd_status (s.trace.length + k)

/-- Abort on first failure, for the calls made by one operation that returned
`ret`: a call that failed is the last call made and its status is `ret`; and
`ret` is `BD_ERROR_OK` exactly when every call succeeded. -/
def first_failure_aborts (calls : List DevCall) (ret : Int) : Prop :=
  (∀ (k : Nat) (hk : k < calls.length), (calls.get ⟨k, hk⟩).err ≠ BD_ERROR_OK →
    ret = (calls.get ⟨k, hk⟩).err ∧ k + 1 = calls.length) ∧
  (ret = BD_ERROR_OK ↔ ∀ c ∈ calls, c.err = BD_ERROR_OK)

/-- Shape of the calls made by a loop that ended with `(returned, ret)`: either
the loop ran to its end, all calls succeeded and `ret` is `BD_ERROR_OK`, or it
was left by `return err;` right after a failed call, all calls before succeeded. -/
def loop_shape (calls : List DevCall) (returned : Bool) (ret : Int) : Prop :=
  (returned = false ∧ ret = BD_ERROR_OK ∧ ∀ c ∈ calls, c.err = BD_ERROR_OK) ∨
  (returned = true ∧ ret ≠ BD_ERROR_OK ∧
    ∃ pre c, calls = pre ++ [c] ∧ (∀ x ∈ pre, x.err = BD_ERROR_OK) ∧ c.err = ret)

/-- A sector device call on whole sectors: the byte address is a multiple of
the sector size and the length is a non-zero multiple of the sector size. -/
def sector_aligned_call (c : DevCall) : Prop :=
  c.addr % SDH_SECTOR_SIZE = 0 ∧ c.size ≠ 0 ∧ c.size % SDH_SECTOR_SIZE = 0

/-- Lengths of the successive windows of the `while (rmn)` loops of `read` and
`program`: the same guard, the same `todo_size` and the same updates of
`addr_pos` and `rmn` as the two loops, without the device calls. -/
def window_sizes (addr_pos rmn : Nat) : List Nat :=
  if hr : rmn = 0 then []
  else
    todo_size addr_pos rmn ::
      window_sizes (add_u64 addr_pos (todo_size addr_pos rmn)) (rmn - todo_size addr_pos rmn)
termination_by rmn
decreasing_by
  have h1 := todo_size_pos addr_pos rmn hr
  omega

/-- Number of 512-byte sectors that intersect `[addr, addr + size)`: the sectors
`k` for which `[k * 512, (k + 1) * 512)` and `[addr, addr + size)` have a common
point. -/
def sectors_touched (addr size : Nat) : Nat :=
  ((Finset.range ((addr + size) / 512 + 1)).filter
    (fun k => max (k * 512) addr < min ((k + 1) * 512) (addr + size))).card

/-! ## Sample devices -/

/-- Status of a failed sector device call (`BD_ERROR_DEVICE_ERROR`). -/
def BD_ERROR_DEVICE_ERROR : Int := -4001

/-- A working card whose byte at address `a` is `a % 251`; lock free, no call yet. -/
def sample_dev : Dev :=
  { card := fun a => a % 251, dma_buff := fun _ => 0, _lock := 0, trace := [],
    sd_status := fun _ => BD_ERROR_OK }

/-- A working card of more than 4 GiB: bytes below `2 ^ 32` are 0xAA, bytes from
`2 ^ 32` on are 0x55. -/
def large_dev : Dev :=
  { card := fun a => if a < 2 ^ 32 then 0xAA else 0x55, dma_buff := fun _ => 0, _lock := 0,
    trace := [], sd_status := fun _ => BD_ERROR_OK }

/-- A working card with every byte 0xFF (fully erased). -/
def erased_dev : Dev :=
  { card := fun _ => 0xFF, dma_buff := fun _ => 0, _lock := 0, trace := [],
    sd_status := fun _ => BD_ERROR_OK }

/-- A working card with every byte 0x00. -/
def zero_dev : Dev :=
  { card := fun _ => 0, dma_buff := fun _ => 0, _lock := 0, trace := [],
    sd_status := fun _ => BD_ERROR_OK }

/-- A card with every byte 0xFF whose sector device fails on every call. -/
def failing_dev : Dev :=
  { card := fun _ => 0xFF, dma_buff := fun _ => 0, _lock := 0, trace := [],
    sd_status := fun _ => BD_ERROR_DEVICE_ERROR }

/-- A card with every byte 0xFF whose sector device fails on its third call only
(the call of index 2). -/
def abort_dev : Dev :=
  { card := fun _ => 0xFF, dma_buff := fun _ => 0, _lock := 0, trace := [],
    sd_status := fun k => if k = 2 then BD_ERROR_DEVICE_ERROR else BD_ERROR_OK }

/-! ## Window arithmetic lemmas -/

theorem sector_offset_eq (addr_pos : Nat) : sector_offset addr_pos = addr_pos % 512 := by
  unfold sector_offset to_u32 SDH_SECTOR_SIZE
  omega

theorem todo_size_eq (addr_pos rmn : Nat) :
    todo_size addr_pos rmn = min rmn (512 - addr_pos % 512) := by
  unfold todo_size sector_offset sub_u32 to_u32 DMA_BUFF_SIZE SDH_SECTOR_SIZE
  simp only []
  split <;> omega

theorem todo_size_le (addr_pos rmn : Nat) : todo_size addr_pos rmn ≤ rmn := by
  rw [todo_size_eq]
  omega

theorem window_addr_eq (addr_pos : Nat) :
    window_addr addr_pos = addr_pos / 512 * 512 % 2 ^ 32 := by
  unfold window_addr mul_u32 begin_sector to_u32 SDH_SECTOR_SIZE
  omega

/-- The device address of a window plus the offset in the sector is the byte
address reduced modulo `2 ^ 32`. -/
theorem window_addr_add_offset (addr_pos : Nat) :
    window_addr addr_pos + addr_pos % 512 = addr_pos % 2 ^ 32 := by
  rw [window_addr_eq]
  omega

theorem window_len_eq (addr_pos rmn : Nat) (hr : rmn ≠ 0) :
    window_len addr_pos rmn = 512 := by
  have ht := todo_size_eq addr_pos rmn
  unfold window_len mul_u32 sub_u32 end_sector begin_sector add_u64 sub_u64 to_u32
  rw [ht]
  unfold SDH_SECTOR_SIZE
  omega

/-- Facts on one window, in terms of the request address modulo `2 ^ 32`. -/
theorem window_step (addr_pos rmn : Nat) (hr : rmn ≠ 0) :
    window_addr addr_pos + addr_pos % 512 = addr_pos % 2 ^ 32 ∧
    addr_pos % 512 + todo_size addr_pos rmn ≤ 512 ∧
    addr_pos % 512 < 512 ∧
    window_addr addr_pos + 512 ≤ 2 ^ 32 ∧
    add_u64 addr_pos (todo_size addr_pos rmn) % 2 ^ 32 =
      (addr_pos % 2 ^ 32 + todo_size addr_pos rmn) % 2 ^ 32 := by
  have h1 := window_addr_add_offset addr_pos
  have h2 := todo_size_eq addr_pos rmn
  have h3 := window_addr_eq addr_pos
  unfold add_u64
  refine ⟨h1, ?_, ?_, ?_, ?_⟩ <;> omega

/-! ## The sector device when it does not fail -/

theorem sd_read_ok (s : Dev) (addr size : Nat) (h : s.sd_status s.trace.length = BD_ERROR_OK) :
    NuSDBlockDevice.read s addr size =
      (BD_ERROR_OK, { s with trace := s.trace ++ [⟨false, addr, size, BD_ERROR_OK⟩],
                             dma_buff := memcpy s.dma_buff 0 s.card addr size }) := by
  simp [NuSDBlockDevice.read, h]

theorem sd_program_ok (s : Dev) (addr size : Nat)
    (h : s.sd_status s.trace.length = BD_ERROR_OK) :
    NuSDBlockDevice.program s addr size =
      (BD_ERROR_OK, { s with trace := s.trace ++ [⟨true, addr, size, BD_ERROR_OK⟩],
                             card := memcpy s.card addr s.dma_buff 0 size }) := by
  simp [NuSDBlockDevice.program, h]

theorem sd_read_spec (s : Dev) (addr size : Nat) (h : never_fails s) :
    (NuSDBlockDevice.read s addr size).1 = BD_ERROR_OK ∧
    (NuSDBlockDevice.read s addr size).2.card = s.card ∧
    (NuSDBlockDevice.read s addr size).2.dma_buff = memcpy s.dma_buff 0 s.card addr size ∧
    (NuSDBlockDevice.read s addr size).2._lock = s._lock ∧
    (NuSDBlockDevice.read s addr size).2.sd_status = s.sd_status := by
  simp [sd_read_ok s addr size (h _)]

theorem sd_program_spec (s : Dev) (addr size : Nat) (h : never_fails s) :
    (NuSDBlockDevice.program s addr size).1 = BD_ERROR_OK ∧
    (NuSDBlockDevice.program s addr size).2.card = memcpy s.card addr s.dma_buff 0 size ∧
    (NuSDBlockDevice.program s addr size).2.dma_buff = s.dma_buff ∧
    (NuSDBlockDevice.program s addr size).2._lock = s._lock ∧
    (NuSDBlockDevice.program s addr size).2.sd_status = s.sd_status := by
  simp [sd_program_ok s addr size (h _)]

/-! ## read, sector device not failing -/

/-- Result of the `read` loop when the sector device does not fail: byte `i`
of the request is the card byte at `(addr_pos + i) % 2 ^ 32`. -/
theorem read_loop_ok (rmn : Nat) : ∀ (out : Nat → Nat) (b_pos addr_pos : Nat) (s : Dev),
    never_fails s →
    (read_loop out BD_ERROR_OK b_pos addr_pos rmn s).1 = false ∧
    (read_loop out BD_ERROR_OK b_pos addr_pos rmn s).2.1 = BD_ERROR_OK ∧
    (∀ j, (read_loop out BD_ERROR_OK b_pos addr_pos rmn s).2.2.1 j =
      if b_pos ≤ j ∧ j < b_pos + rmn then s.card ((addr_pos + (j - b_pos)) % 2 ^ 32)
      else out j) ∧
    (read_loop out BD_ERROR_OK b_pos addr_pos rmn s).2.2.2.card = s.card ∧
    (read_loop out BD_ERROR_OK b_pos addr_pos rmn s).2.2.2._lock = s._lock ∧
    (read_loop out BD_ERROR_OK b_pos addr_pos rmn s).2.2.2.sd_status = s.sd_status := by
  induction rmn using Nat.strong_induction_on with
  | _ rmn ih =>
    intro out b_pos addr_pos s hs
    rw [read_loop]
    by_cases hr : rmn = 0
    · subst hr
      simp only [dif_pos, true_and, and_true]
      intro j
      rw [if_neg (by omega)]
    · have hpos := todo_size_pos addr_pos rmn hr
      have hle := todo_size_le addr_pos rmn
      have hlt : rmn - todo_size addr_pos rmn < rmn := by omega
      rw [dif_neg hr]
      simp only [sd_read_ok s _ _ (hs _), ne_eq, not_true_eq_false, if_false]
      have hs1 : never_fails
          { s with trace := s.trace ++
                     [⟨false, window_addr addr_pos, window_len addr_pos rmn, BD_ERROR_OK⟩],
                   dma_buff := memcpy s.dma_buff 0 s.card (window_addr addr_pos)
                     (window_len addr_pos rmn) } := fun k => hs k
      obtain ⟨h1, h2, h3, h4, h5, h6⟩ := ih _ hlt
        (memcpy out b_pos (memcpy s.dma_buff 0 s.card (window_addr addr_pos)
          (window_len addr_pos rmn)) (sector_offset addr_pos) (todo_size addr_pos rmn))
        (b_pos + todo_size addr_pos rmn) (add_u64 addr_pos (todo_size addr_pos rmn)) _ hs1
      refine ⟨h1, h2, ?_, h4, h5, h6⟩
      intro j
      rw [h3 j]
      have hwl := window_len_eq addr_pos rmn hr
      have hso := sector_offset_eq addr_pos
      have hts := todo_size_eq addr_pos rmn
      have hwa := window_addr_add_offset addr_pos
      simp only [memcpy, hwl, hso]
      unfold add_u64
      by_cases c1 : b_pos + todo_size addr_pos rmn ≤ j ∧
          j < b_pos + todo_size addr_pos rmn + (rmn - todo_size addr_pos rmn)
      · rw [if_pos c1, if_pos (by omega)]
        congr 1
        omega
      · rw [if_neg c1]
        by_cases c2 : b_pos ≤ j ∧ j < b_pos + todo_size addr_pos rmn
        · rw [if_pos c2, if_pos (by omega), if_pos (by omega)]
          congr 1
          omega
        · rw [if_neg c2, if_neg (by omega)]

/-! ## program, sector device not failing -/

/-- Byte stored by `program` over an old byte: AND under the program attribute,
the new byte otherwise. -/
def merged_byte (cfg : Config) (old new : Nat) : Nat :=
  if cfg.NU_SDH_FLASH_PROG_ATR then old &&& new else new

theorem and_loop_eq (b : Nat → Nat) (n : Nat) : ∀ (p q : Nat) (buf : Nat → Nat),
    and_loop b n p q buf =
      fun j => if p ≤ j ∧ j < p + n then buf j &&& b (q + (j - p)) else buf j := by
  induction n with
  | zero =>
    intro p q buf
    funext j
    simp only [and_loop]
    rw [if_neg (by omega)]
  | succ n ih =>
    intro p q buf
    funext j
    simp only [and_loop, ih]
    by_cases c1 : p + 1 ≤ j ∧ j < p + 1 + n
    · have hne : j ≠ p := by omega
      rw [if_pos c1, if_pos (by omega), Function.update_noteq hne]
      congr 2
      omega
    · rw [if_neg c1]
      by_cases c2 : j = p
      · subst c2
        rw [Function.update_same, if_pos (by omega)]
        simp
      · rw [Function.update_noteq c2, if_neg (by omega)]

/-- The staging buffer after the merge step of one `program` window. -/
theorem merge_step_eq (cfg : Config) (b buf : Nat → Nat) (off b_pos todo : Nat) :
    (if cfg.NU_SDH_FLASH_PROG_ATR then and_loop b todo off b_pos buf
      else memcpy buf off b b_pos todo) =
      fun j => if off ≤ j ∧ j < off + todo then merged_byte cfg (buf j) (b (b_pos + (j - off)))
        else buf j := by
  funext j
  unfold merged_byte
  cases cfg.NU_SDH_FLASH_PROG_ATR
  · simp [memcpy]
  · simp [and_loop_eq]

/-- Card bytes after one read-merge-write window, in terms of the bytes before:
only the `t` bytes from `P = A + off` change. -/
theorem window_card (m : Nat → Nat → Nat) (b card dma : Nat → Nat) (b_pos t A off P L : Nat)
    (hA : A + off = P) (hot : off + t ≤ 512) :
    memcpy card A (fun j => if off ≤ j ∧ j < off + t then
        m (memcpy dma 0 card A 512 j) (b (b_pos + (j - off)))
      else memcpy dma 0 card A 512 j) 0 512 L =
    if P ≤ L ∧ L < P + t then m (card L) (b (b_pos + (L - P))) else card L := by
  simp only [memcpy]
  split_ifs <;> first
    | rfl
    | (exfalso; omega)
    | (congr 1; omega)
    | (congr 2 <;> omega)

/-- One window followed by the remaining windows merges the whole request,
as long as the request is no longer than `2 ^ 32` bytes. -/
theorem window_merge (m : Nat → Nat → Nat) (b card card1 : Nat → Nat) (b_pos rmn t P L : Nat)
    (h1 : ∀ L, card1 L = if P ≤ L ∧ L < P + t then m (card L) (b (b_pos + (L - P))) else card L)
    (ht0 : 0 < t) (htr : t ≤ rmn) (hP : P + t ≤ 2 ^ 32) (hsz : rmn ≤ 2 ^ 32) :
    (if L < 2 ^ 32 ∧ (L + 2 ^ 32 - (P + t) % 2 ^ 32) % 2 ^ 32 < rmn - t then
        m (card1 L) (b (b_pos + t + (L + 2 ^ 32 - (P + t) % 2 ^ 32) % 2 ^ 32))
      else card1 L) =
    if L < 2 ^ 32 ∧ (L + 2 ^ 32 - P) % 2 ^ 32 < rmn then
      m (card L) (b (b_pos + (L + 2 ^ 32 - P) % 2 ^ 32))
    else card L := by
  rw [h1 L]
  split_ifs <;> first
    | rfl
    | (exfalso; omega)
    | (congr 1; omega)
    | (congr 2; omega)

/-- Position of the card byte `L` inside a request that starts at `addr_pos`,
counted modulo `2 ^ 32`. -/
def rel_index (addr_pos L : Nat) : Nat := (L + 2 ^ 32 - addr_pos % 2 ^ 32) % 2 ^ 32

/-- Result of the `program` loop when the sector device does not fail and the
request is at most `2 ^ 32` bytes long: exactly the card bytes at
`(addr_pos + i) % 2 ^ 32`, `i < rmn`, are merged with `b[b_pos + i]`. -/
theorem program_loop_ok (cfg : Config) (b : Nat → Nat) (rmn : Nat) :
    ∀ (b_pos addr_pos : Nat) (s : Dev), never_fails s → rmn ≤ 2 ^ 32 →
    (program_loop cfg b BD_ERROR_OK b_pos addr_pos rmn s).1 = false ∧
    (program_loop cfg b BD_ERROR_OK b_pos addr_pos rmn s).2.1 = BD_ERROR_OK ∧
    (∀ L, (program_loop cfg b BD_ERROR_OK b_pos addr_pos rmn s).2.2.card L =
      if L < 2 ^ 32 ∧ rel_index addr_pos L < rmn then
        merged_byte cfg (s.card L) (b (b_pos + rel_index addr_pos L))
      else s.card L) ∧
    (program_loop cfg b BD_ERROR_OK b_pos addr_pos rmn s).2.2._lock = s._lock ∧
    (program_loop cfg b BD_ERROR_OK b_pos addr_pos rmn s).2.2.sd_status = s.sd_status := by
  induction rmn using Nat.strong_induction_on with
  | _ rmn ih =>
    intro b_pos addr_pos s hs hsz
    rw [program_loop]
    by_cases hr : rmn = 0
    · subst hr
      simp only [dif_pos, true_and, and_true]
      intro L
      rw [if_neg (by omega)]
    · have hpos := todo_size_pos addr_pos rmn hr
      have hle := todo_size_le addr_pos rmn
      have hlt : rmn - todo_size addr_pos rmn < rmn := by omega
      rw [dif_neg hr]
      simp only [merge_step_eq]
      obtain ⟨r1, r2, r3, r4, r5⟩ :=
        sd_read_spec s (window_addr addr_pos) (window_len addr_pos rmn) hs
      generalize NuSDBlockDevice.read s (window_addr addr_pos) (window_len addr_pos rmn) = r
        at r1 r2 r3 r4 r5 ⊢
      obtain ⟨e1, s1⟩ := r
      simp only at r1 r2 r3 r4 r5 ⊢
      subst r1
      simp only [ne_eq, not_true_eq_false, if_false]
      have hs1 : ∀ d : Nat → Nat, never_fails { s1 with dma_buff := d } := fun d k => by
        show s1.sd_status k = BD_ERROR_OK
        rw [r5]
        exact hs k
      obtain ⟨w1, w2, w3, w4, w5⟩ :=
        sd_program_spec _ (window_addr addr_pos) (window_len addr_pos rmn) (hs1 (fun j =>
          if sector_offset addr_pos ≤ j ∧
              j < sector_offset addr_pos + todo_size addr_pos rmn then
            merged_byte cfg (s1.dma_buff j) (b (b_pos + (j - sector_offset addr_pos)))
          else s1.dma_buff j))
      generalize NuSDBlockDevice.program _ (window_addr addr_pos) (window_len addr_pos rmn) = w
        at w1 w2 w3 w4 w5 ⊢
      obtain ⟨e2, s2⟩ := w
      simp only at w1 w2 w3 w4 w5 ⊢
      subst w1
      simp only [not_true_eq_false, if_false]
      have hs2 : never_fails s2 := fun k => by
        rw [w5, r5]
        exact hs k
      obtain ⟨h1, h2, h3, h4, h5⟩ := ih _ hlt (b_pos + todo_size addr_pos rmn)
        (add_u64 addr_pos (todo_size addr_pos rmn)) s2 hs2 (by omega)
      rw [w4, r4] at h4
      rw [w5, r5] at h5
      refine ⟨h1, h2, ?_, h4, h5⟩
      obtain ⟨f1, f2, f3, f4, f5⟩ := window_step addr_pos rmn hr
      have hcard : ∀ L, s2.card L =
          if addr_pos % 2 ^ 32 ≤ L ∧ L < addr_pos % 2 ^ 32 + todo_size addr_pos rmn then
            merged_byte cfg (s.card L) (b (b_pos + (L - addr_pos % 2 ^ 32)))
          else s.card L := by
        intro L
        rw [w2, r2, r3, window_len_eq addr_pos rmn hr, sector_offset_eq]
        exact window_card (merged_byte cfg) b s.card s.dma_buff b_pos _ _ _ _ L f1 f2
      intro L
      rw [h3 L]
      unfold rel_index
      rw [f5]
      exact window_merge (merged_byte cfg) b s.card s2.card b_pos rmn _ _ L hcard hpos hle
        (by omega) hsz

/-- Source `program`, sector device not failing, request of at most `2 ^ 32`
bytes: status, card contents, lock and device schedule after the call. -/
theorem program_ok (cfg : Config) (b : Nat → Nat) (addr size : Nat) (s : Dev)
    (hs : never_fails s) (hsz : size ≤ 2 ^ 32) :
    (program cfg b addr size s).1 = BD_ERROR_OK ∧
    (∀ L, (program cfg b addr size s).2.card L =
      if L < 2 ^ 32 ∧ rel_index addr L < size then
        merged_byte cfg (s.card L) (b (rel_index addr L))
      else s.card L) ∧
    (program cfg b addr size s).2._lock = s._lock ∧
    (program cfg b addr size s).2.sd_status = s.sd_status := by
  obtain ⟨h1, h2, h3, h4, h5⟩ := program_loop_ok cfg b size 0 addr s.lock (fun k => hs k) hsz
  unfold program
  simp only [h1, h2, Bool.false_eq_true, if_false]
  refine ⟨trivial, ?_, ?_, ?_⟩
  · intro L
    have := h3 L
    simp only [Nat.zero_add] at this
    exact this
  · show (program_loop cfg b BD_ERROR_OK 0 addr size s.lock).2.2._lock - 1 = s._lock
    rw [h4]
    rfl
  · exact h5

/-- Source `read`, sector device not failing: status, bytes returned, card, lock
and device schedule after the call. -/
theorem read_ok (out : Nat → Nat) (addr size : Nat) (s : Dev) (hs : never_fails s) :
    (read out addr size s).1 = BD_ERROR_OK ∧
    (∀ j, (read out addr size s).2.1 j =
      if j < size then s.card ((addr + j) % 2 ^ 32) else out j) ∧
    (read out addr size s).2.2.card = s.card ∧
    (read out addr size s).2.2._lock = s._lock ∧
    (read out addr size s).2.2.sd_status = s.sd_status := by
  obtain ⟨h1, h2, h3, h4, h5, h6⟩ := read_loop_ok size out 0 addr s.lock (fun k => hs k)
  unfold read
  simp only [h1, h2, Bool.false_eq_true, if_false]
  refine ⟨trivial, ?_, h4, ?_, h6⟩
  · intro j
    have := h3 j
    simp only [Nat.zero_add, Nat.zero_le, true_and, Nat.sub_zero] at this
    exact this
  · show (read_loop out BD_ERROR_OK 0 addr size s.lock).2.2.2._lock - 1 = s._lock
    rw [h5]
    rfl

/-! ## erase, sector device not failing -/

theorem erase_loop_ok (n : Nat) : ∀ (p e : Nat) (h : erase_bounds p e) (s : Dev),
    e - p = n → never_fails s →
    (erase_loop BD_ERROR_OK p e h s).1 = false ∧
    (erase_loop BD_ERROR_OK p e h s).2.1 = BD_ERROR_OK ∧
    (∀ L, (erase_loop BD_ERROR_OK p e h s).2.2.card L =
      if p ≤ L ∧ L < e then s.dma_buff ((L - p) % 512) else s.card L) ∧
    (erase_loop BD_ERROR_OK p e h s).2.2._lock = s._lock ∧
    (erase_loop BD_ERROR_OK p e h s).2.2.sd_status = s.sd_status := by
  induction n using Nat.strong_induction_on with
  | _ n ih =>
    intro p e h s hn hs
    rw [erase_loop]
    by_cases hlt : p < e
    · rw [dif_pos hlt]
      have hb := h
      unfold erase_bounds SDH_SECTOR_SIZE at hb
      have hnext : add_u64 p SDH_SECTOR_SIZE = p + 512 := by
        unfold add_u64 SDH_SECTOR_SIZE
        omega
      obtain ⟨w1, w2, w3, w4, w5⟩ := sd_program_spec s p SDH_SECTOR_SIZE hs
      generalize NuSDBlockDevice.program s p SDH_SECTOR_SIZE = w at w1 w2 w3 w4 w5 ⊢
      obtain ⟨e2, s2⟩ := w
      simp only at w1 w2 w3 w4 w5 ⊢
      subst w1
      simp only [ne_eq, not_true_eq_false, if_false]
      have hs2 : never_fails s2 := fun k => by
        rw [w5]
        exact hs k
      have hb2 : erase_bounds (add_u64 p SDH_SECTOR_SIZE) e := by
        unfold erase_bounds
        rw [hnext]
        unfold SDH_SECTOR_SIZE
        omega
      obtain ⟨h1, h2, h3, h4, h5⟩ :=
        ih (e - add_u64 p SDH_SECTOR_SIZE) (by omega) (add_u64 p SDH_SECTOR_SIZE) e hb2 s2 rfl hs2
      refine ⟨h1, h2, ?_, by rw [h4, w4], by rw [h5, w5]⟩
      intro L
      rw [h3 L, w2, w3, hnext]
      unfold SDH_SECTOR_SIZE
      simp only [memcpy]
      by_cases c1 : p + 512 ≤ L ∧ L < e
      · rw [if_pos c1, if_pos (by omega)]
        exact congrArg s.dma_buff (by omega)
      · rw [if_neg c1]
        by_cases c2 : p ≤ L ∧ L < p + 512
        · rw [if_pos c2, if_pos (by omega)]
          exact congrArg s.dma_buff (by omega)
        · rw [if_neg c2, if_neg (by omega)]
    · rw [dif_neg hlt]
      refine ⟨rfl, rfl, ?_, rfl, rfl⟩
      intro L
      rw [if_neg (by omega)]

theorem erase_addr_pos_eq (cfg : Config) (addr : Nat) (h : addr < 2 ^ 64) :
    erase_addr_pos cfg addr =
      addr / cfg.NU_SDH_FLASH_SECTOR_SIZE * cfg.NU_SDH_FLASH_SECTOR_SIZE := by
  unfold erase_addr_pos mul_u64
  have := Nat.div_mul_le_self addr cfg.NU_SDH_FLASH_SECTOR_SIZE
  exact Nat.mod_eq_of_lt (by omega)

theorem erase_addr_end_eq (cfg : Config) (addr size : Nat)
    (hEU : 0 < cfg.NU_SDH_FLASH_SECTOR_SIZE)
    (h : addr + size + cfg.NU_SDH_FLASH_SECTOR_SIZE ≤ 2 ^ 64) :
    erase_addr_end cfg addr size =
      (addr / cfg.NU_SDH_FLASH_SECTOR_SIZE * cfg.NU_SDH_FLASH_SECTOR_SIZE + size
        + cfg.NU_SDH_FLASH_SECTOR_SIZE - 1) / cfg.NU_SDH_FLASH_SECTOR_SIZE
        * cfg.NU_SDH_FLASH_SECTOR_SIZE := by
  unfold erase_addr_end
  rw [erase_addr_pos_eq cfg addr (by omega)]
  have h1 := Nat.div_mul_le_self addr cfg.NU_SDH_FLASH_SECTOR_SIZE
  generalize addr / cfg.NU_SDH_FLASH_SECTOR_SIZE * cfg.NU_SDH_FLASH_SECTOR_SIZE = q at h1 ⊢
  have h2 : sub_u64 (add_u64 (add_u64 q size) cfg.NU_SDH_FLASH_SECTOR_SIZE) 1 =
      q + size + cfg.NU_SDH_FLASH_SECTOR_SIZE - 1 := by
    unfold sub_u64 add_u64
    omega
  rw [h2]
  unfold mul_u64
  have h3 := Nat.div_mul_le_self (q + size + cfg.NU_SDH_FLASH_SECTOR_SIZE - 1)
    cfg.NU_SDH_FLASH_SECTOR_SIZE
  exact Nat.mod_eq_of_lt (by omega)

/-- Source `erase`, sector device not failing and no `uint64_t` wrap-around:
every byte from `addr` rounded down to the erase unit up to the computed end is
0xFF afterwards, every other byte keeps its value. -/
theorem erase_ok (cfg : Config) (addr size : Nat) (s : Dev) (hs : never_fails s)
    (hEU : 0 < cfg.NU_SDH_FLASH_SECTOR_SIZE)
    (h : addr + size + cfg.NU_SDH_FLASH_SECTOR_SIZE ≤ 2 ^ 64) :
    (erase cfg addr size s).1 = BD_ERROR_OK ∧
    (∀ L, (erase cfg addr size s).2.card L =
      if addr / cfg.NU_SDH_FLASH_SECTOR_SIZE * cfg.NU_SDH_FLASH_SECTOR_SIZE ≤ L ∧
          L < (addr / cfg.NU_SDH_FLASH_SECTOR_SIZE * cfg.NU_SDH_FLASH_SECTOR_SIZE + size
            + cfg.NU_SDH_FLASH_SECTOR_SIZE - 1) / cfg.NU_SDH_FLASH_SECTOR_SIZE
            * cfg.NU_SDH_FLASH_SECTOR_SIZE
      then 0xFF else s.card L) ∧
    (erase cfg addr size s).2._lock = s._lock ∧
    (erase cfg addr size s).2.sd_status = s.sd_status := by
  obtain ⟨h1, h2, h3, h4, h5⟩ := erase_loop_ok _ (erase_addr_pos cfg addr)
    (erase_addr_end cfg addr size)
    ⟨mul_u64_erase_unit_aligned cfg _, mul_u64_erase_unit_aligned cfg _,
      Nat.mod_lt _ (by norm_num)⟩
    { s.lock with dma_buff := memset s.lock.dma_buff 0 0xFF SDH_SECTOR_SIZE } rfl
    (fun k => hs k)
  unfold erase
  simp only [h1, h2, Bool.false_eq_true, if_false]
  refine ⟨trivial, ?_, ?_, h5⟩
  · intro L
    show (erase_loop BD_ERROR_OK (erase_addr_pos cfg addr) (erase_addr_end cfg addr size) _
      { s.lock with dma_buff := memset s.lock.dma_buff 0 0xFF SDH_SECTOR_SIZE }).2.2.card L = _
    rw [h3 L, erase_addr_pos_eq cfg addr (by omega), erase_addr_end_eq cfg addr size hEU h]
    simp only [memset, SDH_SECTOR_SIZE]
    have hm : ∀ x : Nat, (0 ≤ x % 512 ∧ x % 512 < 0 + 512) := fun x => by omega
    simp only [hm, if_true]
    rfl
  · show (erase_loop BD_ERROR_OK (erase_addr_pos cfg addr) (erase_addr_end cfg addr size) _
      { s.lock with dma_buff := memset s.lock.dma_buff 0 0xFF SDH_SECTOR_SIZE }).2.2._lock - 1
        = s._lock
    rw [h4]
    rfl

theorem le_unit_ceil (cfg : Config) (hEU : 0 < cfg.NU_SDH_FLASH_SECTOR_SIZE) (x : Nat) :
    x ≤ unit_ceil cfg x := by
  unfold unit_ceil
  have := Nat.lt_div_mul_add (a := x + cfg.NU_SDH_FLASH_SECTOR_SIZE - 1) hEU
  omega

theorem unit_ceil_succ (cfg : Config) (hEU : 0 < cfg.NU_SDH_FLASH_SECTOR_SIZE) (u : Nat)
    (hu : u % cfg.NU_SDH_FLASH_SECTOR_SIZE = 0) :
    unit_ceil cfg (u + cfg.NU_SDH_FLASH_SECTOR_SIZE) = u + cfg.NU_SDH_FLASH_SECTOR_SIZE := by
  unfold unit_ceil
  obtain ⟨q, hq⟩ := Nat.dvd_of_mod_eq_zero hu
  have h1 : u + cfg.NU_SDH_FLASH_SECTOR_SIZE + cfg.NU_SDH_FLASH_SECTOR_SIZE - 1
      = (cfg.NU_SDH_FLASH_SECTOR_SIZE - 1) + cfg.NU_SDH_FLASH_SECTOR_SIZE * (q + 1) := by
    rw [Nat.mul_add, ← hq]
    omega
  rw [h1, Nat.add_mul_div_left _ _ hEU, Nat.div_eq_of_lt (by omega), Nat.zero_add, Nat.add_mul,
    Nat.mul_comm q, ← hq]
  omega

/-! ## Requests below 4 GiB -/

/-- Below `2 ^ 32` the `uint32_t` sector address is exact: `read` returns the
card bytes of the requested range. -/
theorem read_below_4GiB (out : Nat → Nat) (addr size : Nat) (s : Dev) (hs : never_fails s)
    (h : addr + size ≤ 2 ^ 32) :
    (read out addr size s).1 = BD_ERROR_OK ∧
    ∀ i, i < size → (read out addr size s).2.1 i = s.card (addr + i) := by
  obtain ⟨r1, r2, _, _, _⟩ := read_ok out addr size s hs
  refine ⟨r1, ?_⟩
  intro i hi
  rw [r2 i, if_pos hi]
  exact congrArg s.card (by omega)

/-- Below `2 ^ 32` the `uint32_t` sector address is exact: `program` merges the
buffer into the requested range and leaves every other byte of the card. -/
theorem program_below_4GiB (cfg : Config) (b : Nat → Nat) (addr size : Nat) (s : Dev)
    (hs : never_fails s) (h : addr + size ≤ 2 ^ 32) :
    (program cfg b addr size s).1 = BD_ERROR_OK ∧
    ∀ L, (program cfg b addr size s).2.card L =
      if addr ≤ L ∧ L < addr + size then merged_byte cfg (s.card L) (b (L - addr))
      else s.card L := by
  obtain ⟨p1, p2, _, _⟩ := program_ok cfg b addr size s hs (by omega)
  refine ⟨p1, ?_⟩
  intro L
  rw [p2 L]
  unfold rel_index
  by_cases c : addr ≤ L ∧ L < addr + size
  · rw [if_pos c, if_pos (by omega)]
    exact congrArg (fun x => merged_byte cfg (s.card L) (b x)) (by omega)
  · rw [if_neg c, if_neg (by omega)]

/-- Under the program attribute `program` never sets a bit of the card: a bit
that is 1 after a successful call was 1 before it (also above `2 ^ 32`). -/
theorem program_never_sets_bits (cfg : Config) (hpol : cfg.NU_SDH_FLASH_PROG_ATR = true)
    (b : Nat → Nat) (addr size : Nat) (s : Dev) (hs : never_fails s) (hsz : size ≤ 2 ^ 32)
    (L k : Nat) (h : ((program cfg b addr size s).2.card L).testBit k = true) :
    (s.card L).testBit k = true := by
  obtain ⟨_, p2, _, _⟩ := program_ok cfg b addr size s hs hsz
  rw [p2 L] at h
  unfold merged_byte at h
  rw [hpol] at h
  split at h
  · simp only [if_true, Nat.testBit_and, Bool.and_eq_true] at h
    exact h.1
  · exact h

/-- An erased byte programmed with a byte `x` holds `x`, in both modes. -/
theorem merged_byte_erased (cfg : Config) (x : Nat) (hx : x < 256) :
    merged_byte cfg 0xFF x = x := by
  unfold merged_byte
  split
  · have h := Nat.and_pow_two_sub_one_eq_mod x 8
    rw [Nat.land_comm]
    rw [Nat.mod_eq_of_lt (by omega)] at h
    exact h
  · rfl

/-- Erase of one unit, then `program` of a sub-range, then `read`, for an erase
unit that ends at or below `2 ^ 32`: the data is read back and the other bytes of
the unit hold 0xFF. -/
theorem erase_program_read_below_4GiB (cfg : Config) (u a n : Nat) (data out : Nat → Nat)
    (s : Dev) (hEU : 0 < cfg.NU_SDH_FLASH_SECTOR_SIZE) (hs : never_fails s)
    (hu : u % cfg.NU_SDH_FLASH_SECTOR_SIZE = 0)
    (hin : u ≤ a ∧ a + n ≤ u + cfg.NU_SDH_FLASH_SECTOR_SIZE)
    (h4G : u + cfg.NU_SDH_FLASH_SECTOR_SIZE ≤ 2 ^ 32) (hdata : ∀ i, i < n → data i < 256) :
    (∀ i, i < n →
      (read out a n (program cfg data a n
        (erase cfg u cfg.NU_SDH_FLASH_SECTOR_SIZE s).2).2).2.1 i = data i) ∧
    (∀ L, u ≤ L → L < u + cfg.NU_SDH_FLASH_SECTOR_SIZE → ¬(a ≤ L ∧ L < a + n) →
      (program cfg data a n (erase cfg u cfg.NU_SDH_FLASH_SECTOR_SIZE s).2).2.card L = 0xFF) := by
  have hc := unit_ceil_succ cfg hEU u hu
  obtain ⟨_, e2, _, e4⟩ := erase_ok cfg u cfg.NU_SDH_FLASH_SECTOR_SIZE s hs hEU (by omega)
  have hfl : u / cfg.NU_SDH_FLASH_SECTOR_SIZE * cfg.NU_SDH_FLASH_SECTOR_SIZE = u :=
    Nat.div_mul_cancel (Nat.dvd_of_mod_eq_zero hu)
  rw [hfl] at e2
  unfold unit_ceil at hc
  rw [hc] at e2
  have hs1 : never_fails (erase cfg u cfg.NU_SDH_FLASH_SECTOR_SIZE s).2 := fun k => by
    rw [e4]
    exact hs k
  obtain ⟨p1, p2, _, p4⟩ := program_ok cfg data a n
    (erase cfg u cfg.NU_SDH_FLASH_SECTOR_SIZE s).2 hs1 (by omega)
  obtain ⟨_, q2⟩ := program_below_4GiB cfg data a n
    (erase cfg u cfg.NU_SDH_FLASH_SECTOR_SIZE s).2 hs1 (by omega)
  have hs2 : never_fails (program cfg data a n
      (erase cfg u cfg.NU_SDH_FLASH_SECTOR_SIZE s).2).2 := fun k => by
    rw [p4]
    exact hs1 k
  obtain ⟨_, r2⟩ := read_below_4GiB out a n _ hs2 (by omega)
  refine ⟨?_, ?_⟩
  · intro i hi
    rw [r2 i hi, q2, if_pos (by omega), e2, if_pos (by omega)]
    have : a + i - a = i := by omega
    rw [this]
    exact merged_byte_erased cfg _ (hdata i hi)
  · intro L h1 h2 h3
    rw [q2, if_neg h3, e2, if_pos ⟨h1, h2⟩]

/-- The scenario of the specification (erase unit 4096, program attribute on), on
any working card: after `erase(0, 4096)` and `program` of ten 0x00 bytes at 0,
`read(0, 10)` is ten 0x00 and `read(10, 502)` is 502 bytes 0xFF; a further
`program([0xFF, 0x0F], 5, 2)` leaves bytes 5 and 6 at 0x00. -/
theorem scenario_4096 (out : Nat → Nat) (s : Dev) (hs : never_fails s) :
    (∀ i, i < 10 → (read out 0 10 (program default_config (fun _ => 0) 0 10
      (erase default_config 0 4096 s).2).2).2.1 i = 0) ∧
    (∀ i, i < 502 → (read out 10 502 (program default_config (fun _ => 0) 0 10
      (erase default_config 0 4096 s).2).2).2.1 i = 0xFF) ∧
    (program default_config (fun i => if i = 0 then 0xFF else 0x0F) 5 2
      (program default_config (fun _ => 0) 0 10 (erase default_config 0 4096 s).2).2).2.card 5
      = 0 ∧
    (program default_config (fun i => if i = 0 then 0xFF else 0x0F) 5 2
      (program default_config (fun _ => 0) 0 10 (erase default_config 0 4096 s).2).2).2.card 6
      = 0 := by
  obtain ⟨_, e2, _, e4⟩ := erase_ok default_config 0 4096 s hs (by decide) (by decide)
  have hs1 : never_fails (erase default_config 0 4096 s).2 := fun k => by
    rw [e4]
    exact hs k
  obtain ⟨_, p2, _, p4⟩ := program_ok default_config (fun _ => 0) 0 10 _ hs1 (by norm_num)
  obtain ⟨_, q2⟩ := program_below_4GiB default_config (fun _ => 0) 0 10 _ hs1 (by norm_num)
  have hs2 : never_fails (program default_config (fun _ => 0) 0 10
      (erase default_config 0 4096 s).2).2 := fun k => by
    rw [p4]
    exact hs1 k
  obtain ⟨_, r2⟩ := read_below_4GiB out 0 10 _ hs2 (by norm_num)
  obtain ⟨_, r3⟩ := read_below_4GiB out 10 502 _ hs2 (by norm_num)
  obtain ⟨_, q3⟩ := program_below_4GiB default_config (fun i => if i = 0 then 0xFF else 0x0F)
    5 2 _ hs2 (by norm_num)
  have hlo : ∀ L, L < 10 → (program default_config (fun _ => 0) 0 10
      (erase default_config 0 4096 s).2).2.card L = 0 := by
    intro L hL
    rw [q2, if_pos (by omega)]
    unfold merged_byte
    simp [default_config]
  refine ⟨?_, ?_, ?_, ?_⟩
  · intro i hi
    rw [r2 i hi]
    exact hlo _ (by omega)
  · intro i hi
    rw [r3 i hi, q2, if_neg (by omega), e2]
    have h1 : (0 : Nat) / default_config.NU_SDH_FLASH_SECTOR_SIZE
        * default_config.NU_SDH_FLASH_SECTOR_SIZE = 0 := by decide
    have h2 : ((0 : Nat) / default_config.NU_SDH_FLASH_SECTOR_SIZE
        * default_config.NU_SDH_FLASH_SECTOR_SIZE + 4096
        + default_config.NU_SDH_FLASH_SECTOR_SIZE - 1) / default_config.NU_SDH_FLASH_SECTOR_SIZE
        * default_config.NU_SDH_FLASH_SECTOR_SIZE = 4096 := by decide
    rw [h2, h1, if_pos (by omega)]
  · rw [q3, if_pos (by omega), hlo 5 (by omega)]
    unfold merged_byte
    simp [default_config]
  · rw [q3, if_pos (by omega), hlo 6 (by omega)]
    unfold merged_byte
    simp [default_config]

/-! ## Error propagation -/

theorem loop_shape_cons (c0 : DevCall) (calls : List DevCall) (returned : Bool) (ret : Int)
    (h0 : c0.err = BD_ERROR_OK) (h : loop_shape calls returned ret) :
    loop_shape (c0 :: calls) returned ret := by
  rcases h with ⟨h1, h2, h3⟩ | ⟨h1, h2, pre, c, h3, h4, h5⟩
  · left
    refine ⟨h1, h2, ?_⟩
    intro c hc
    rcases List.mem_cons.mp hc with rfl | hc
    · exact h0
    · exact h3 c hc
  · right
    refine ⟨h1, h2, c0 :: pre, c, by rw [h3]; rfl, ?_, h5⟩
    intro x hx
    rcases List.mem_cons.mp hx with rfl | hx
    · exact h0
    · exact h4 x hx

theorem loop_shape_fail (c : DevCall) (h : c.err ≠ BD_ERROR_OK) :
    loop_shape [c] true c.err :=
  Or.inr ⟨rfl, h, [], c, rfl, fun _ hx => absurd hx (List.not_mem_nil _), rfl⟩

theorem first_failure_aborts_of_shape (calls : List DevCall) (returned : Bool) (ret : Int)
    (h : loop_shape calls returned ret) : first_failure_aborts calls ret := by
  rcases h with ⟨_, h2, h3⟩ | ⟨_, h2, pre, c, h3, h4, h5⟩
  · refine ⟨?_, ?_⟩
    · intro k hk hne
      exact absurd (h3 _ (List.get_mem calls k hk)) hne
    · exact ⟨fun _ => h3, fun _ => h2⟩
  · subst h3
    refine ⟨?_, ?_⟩
    · intro k hk hne
      have hlen : (pre ++ [c]).length = pre.length + 1 := by simp
      by_cases hkp : k < pre.length
      · exfalso
        apply hne
        have : (pre ++ [c]).get ⟨k, hk⟩ = pre.get ⟨k, hkp⟩ := by
          simp [List.getElem_append_left, hkp]
        rw [this]
        exact h4 _ (List.get_mem pre k hkp)
      · have hk2 : k = pre.length := by omega
        subst hk2
        refine ⟨?_, by omega⟩
        have : (pre ++ [c]).get ⟨pre.length, hk⟩ = c := by simp
        rw [this, h5]
    · constructor
      · intro h
        exact absurd h h2
      · intro h
        exfalso
        apply h2
        rw [← h5]
        exact h c (by simp)

theorem sd_read_cases (s : Dev) (addr size : Nat) (r : Int × Dev)
    (h : NuSDBlockDevice.read s addr size = r) :
    r.2.trace = s.trace ++ [⟨false, addr, size, r.1⟩] ∧ r.2.sd_status = s.sd_status ∧
    r.1 = s.sd_status s.trace.length := by
  subst h
  unfold NuSDBlockDevice.read
  simp only []
  split <;> exact ⟨rfl, rfl, rfl⟩

theorem sd_program_cases (s : Dev) (addr size : Nat) (w : Int × Dev)
    (h : NuSDBlockDevice.program s addr size = w) :
    w.2.trace = s.trace ++ [⟨true, addr, size, w.1⟩] ∧ w.2.sd_status = s.sd_status ∧
    w.1 = s.sd_status s.trace.length := by
  subst h
  unfold NuSDBlockDevice.program
  simp only []
  split <;> exact ⟨rfl, rfl, rfl⟩

theorem calls_follow_schedule_nil (s : Dev) : calls_follow_schedule s [] :=
  fun _ hk => absurd hk (Nat.not_lt_zero _)

theorem calls_follow_schedule_cons (s s1 : Dev) (c : DevCall) (calls : List DevCall)
    (h0 : c.err = s.sd_status s.trace.length) (ht : s1.trace = s.trace ++ [c])
    (hs : s1.sd_status = s.sd_status) (h : calls_follow_schedule s1 calls) :
    calls_follow_schedule s (c :: calls) := by
  intro k hk
  cases k with
  | zero => simpa using h0
  | succ k =>
    have hk2 : k < calls.length := by
      simp only [List.length_cons] at hk
      omega
    have := h k hk2
    rw [hs, ht] at this
    simp only [List.length_append, List.length_singleton] at this
    simp only [List.get_eq_getElem, List.getElem_cons_succ] at this ⊢
    rw [this]
    exact congrArg s.sd_status (by omega)

/-- Calls made by the `program` loop, for any schedule of device failures. -/
theorem program_loop_calls (cfg : Config) (b : Nat → Nat) (rmn : Nat) :
    ∀ (b_pos addr_pos : Nat) (s : Dev),
    ∃ calls, (program_loop cfg b BD_ERROR_OK b_pos addr_pos rmn s).2.2.trace = s.trace ++ calls ∧
      loop_shape calls (program_loop cfg b BD_ERROR_OK b_pos addr_pos rmn s).1
        (program_loop cfg b BD_ERROR_OK b_pos addr_pos rmn s).2.1 ∧
      calls_follow_schedule s calls := by
  induction rmn using Nat.strong_induction_on with
  | _ rmn ih =>
    intro b_pos addr_pos s
    rw [program_loop]
    by_cases hr : rmn = 0
    · rw [dif_pos hr]
      exact ⟨[], by simp, Or.inl ⟨rfl, rfl, fun _ hx => absurd hx (List.not_mem_nil _)⟩,
        calls_follow_schedule_nil s⟩
    · rw [dif_neg hr]
      have hpos := todo_size_pos addr_pos rmn hr
      have hlt : rmn - todo_size addr_pos rmn < rmn := by omega
      simp only []
      generalize hrd : NuSDBlockDevice.read s (window_addr addr_pos) (window_len addr_pos rmn) = r
      obtain ⟨t1, u1, v1⟩ := sd_read_cases _ _ _ _ hrd
      obtain ⟨e1, s1⟩ := r
      simp only at t1 u1 v1 ⊢
      by_cases hf : e1 = BD_ERROR_OK
      · subst hf
        simp only [ne_eq, not_true_eq_false, if_false]
        generalize hwr : NuSDBlockDevice.program _ (window_addr addr_pos)
          (window_len addr_pos rmn) = w
        obtain ⟨t2, u2, v2⟩ := sd_program_cases _ _ _ _ hwr
        obtain ⟨e2, s2⟩ := w
        simp only at t2 u2 v2 ⊢
        by_cases hf2 : e2 = BD_ERROR_OK
        · subst hf2
          simp only [not_true_eq_false, if_false]
          obtain ⟨calls, hc1, hc2, hc3⟩ := ih _ hlt (b_pos + todo_size addr_pos rmn)
            (add_u64 addr_pos (todo_size addr_pos rmn)) s2
          refine ⟨_ :: _ :: calls, ?_, loop_shape_cons (⟨false, window_addr addr_pos, window_len addr_pos rmn, BD_ERROR_OK⟩ : DevCall) _ _ _ rfl
            (loop_shape_cons (⟨true, window_addr addr_pos, window_len addr_pos rmn, BD_ERROR_OK⟩ : DevCall) _ _ _ rfl hc2),
            calls_follow_schedule_cons s s1 _ _ v1 t1 u1
              (calls_follow_schedule_cons s1 s2 _ _ v2 t2 u2 hc3)⟩
          rw [hc1, t2, t1]
          simp
        · rw [if_pos hf2]
          refine ⟨[_, _], ?_, loop_shape_cons (⟨false, window_addr addr_pos, window_len addr_pos rmn, BD_ERROR_OK⟩ : DevCall) _ _ _ rfl
            (loop_shape_fail ⟨true, window_addr addr_pos, window_len addr_pos rmn, e2⟩ hf2),
            calls_follow_schedule_cons s s1 _ _ v1 t1 u1
              (calls_follow_schedule_cons s1 s2 _ _ v2 t2 u2 (calls_follow_schedule_nil s2))⟩
          simp only []
          rw [t2, t1]
          simp
      · rw [if_pos hf]
        exact ⟨[_], t1, loop_shape_fail ⟨false, _, _, e1⟩ hf,
          calls_follow_schedule_cons s s1 _ _ v1 t1 u1 (calls_follow_schedule_nil s1)⟩

/-- Calls made by the `read` loop, for any schedule of device failures. -/
theorem read_loop_calls (rmn : Nat) :
    ∀ (out : Nat → Nat) (b_pos addr_pos : Nat) (s : Dev),
    ∃ calls, (read_loop out BD_ERROR_OK b_pos addr_pos rmn s).2.2.2.trace = s.trace ++ calls ∧
      loop_shape calls (read_loop out BD_ERROR_OK b_pos addr_pos rmn s).1
        (read_loop out BD_ERROR_OK b_pos addr_pos rmn s).2.1 ∧
      calls_follow_schedule s calls := by
  induction rmn using Nat.strong_induction_on with
  | _ rmn ih =>
    intro out b_pos addr_pos s
    rw [read_loop]
    by_cases hr : rmn = 0
    · rw [dif_pos hr]
      exact ⟨[], by simp, Or.inl ⟨rfl, rfl, fun _ hx => absurd hx (List.not_mem_nil _)⟩,
        calls_follow_schedule_nil s⟩
    · rw [dif_neg hr]
      have hpos := todo_size_pos addr_pos rmn hr
      have hlt : rmn - todo_size addr_pos rmn < rmn := by omega
      simp only []
      generalize hrd : NuSDBlockDevice.read s (window_addr addr_pos) (window_len addr_pos rmn) = r
      obtain ⟨t1, u1, v1⟩ := sd_read_cases _ _ _ _ hrd
      obtain ⟨e1, s1⟩ := r
      simp only at t1 u1 v1 ⊢
      by_cases hf : e1 = BD_ERROR_OK
      · subst hf
        simp only [ne_eq, not_true_eq_false, if_false]
        obtain ⟨calls, hc1, hc2, hc3⟩ := ih _ hlt
          (memcpy out b_pos s1.dma_buff (sector_offset addr_pos) (todo_size addr_pos rmn))
          (b_pos + todo_size addr_pos rmn) (add_u64 addr_pos (todo_size addr_pos rmn)) s1
        refine ⟨_ :: calls, ?_, loop_shape_cons (⟨false, window_addr addr_pos, window_len addr_pos rmn, BD_ERROR_OK⟩ : DevCall) _ _ _ rfl hc2,
          calls_follow_schedule_cons s s1 _ _ v1 t1 u1 hc3⟩
        rw [hc1, t1]
        simp
      · rw [if_pos hf]
        exact ⟨[_], t1, loop_shape_fail ⟨false, _, _, e1⟩ hf,
          calls_follow_schedule_cons s s1 _ _ v1 t1 u1 (calls_follow_schedule_nil s1)⟩

/-- Calls made by the `for` loop of `erase`, for any schedule of device failures. -/
theorem erase_loop_calls (n : Nat) : ∀ (p e : Nat) (h : erase_bounds p e) (s : Dev),
    e - p = n →
    ∃ calls, (erase_loop BD_ERROR_OK p e h s).2.2.trace = s.trace ++ calls ∧
      loop_shape calls (erase_loop BD_ERROR_OK p e h s).1
        (erase_loop BD_ERROR_OK p e h s).2.1 ∧
      calls_follow_schedule s calls := by
  induction n using Nat.strong_induction_on with
  | _ n ih =>
    intro p e h s hn
    rw [erase_loop]
    by_cases hlt : p < e
    · rw [dif_pos hlt]
      have hb := h
      unfold erase_bounds SDH_SECTOR_SIZE at hb
      have hnext : add_u64 p SDH_SECTOR_SIZE = p + 512 := by
        unfold add_u64 SDH_SECTOR_SIZE
        omega
      have hb2 : erase_bounds (add_u64 p SDH_SECTOR_SIZE) e := by
        unfold erase_bounds
        rw [hnext]
        unfold SDH_SECTOR_SIZE
        omega
      simp only []
      generalize hwr : NuSDBlockDevice.program s p SDH_SECTOR_SIZE = w
      obtain ⟨t2, u2, v2⟩ := sd_program_cases _ _ _ _ hwr
      obtain ⟨e2, s2⟩ := w
      simp only at t2 u2 v2 ⊢
      by_cases hf2 : e2 = BD_ERROR_OK
      · subst hf2
        simp only [ne_eq, not_true_eq_false, if_false]
        obtain ⟨calls, hc1, hc2, hc3⟩ :=
          ih (e - add_u64 p SDH_SECTOR_SIZE) (by omega) (add_u64 p SDH_SECTOR_SIZE) e hb2 s2 rfl
        refine ⟨_ :: calls, ?_, loop_shape_cons (⟨true, p, SDH_SECTOR_SIZE, BD_ERROR_OK⟩ : DevCall)
          _ _ _ rfl hc2, calls_follow_schedule_cons s s2 _ _ v2 t2 u2 hc3⟩
        rw [hc1, t2]
        simp
      · rw [if_pos hf2]
        exact ⟨[_], t2, loop_shape_fail ⟨true, _, _, e2⟩ hf2,
          calls_follow_schedule_cons s s2 _ _ v2 t2 u2 (calls_follow_schedule_nil s2)⟩
    · rw [dif_neg hlt]
      exact ⟨[], by simp, Or.inl ⟨rfl, rfl, fun _ hx => absurd hx (List.not_mem_nil _)⟩,
        calls_follow_schedule_nil s⟩

theorem abort_of_loop (s s0 t : Dev) (ret : Int) (calls : List DevCall) (returned : Bool)
    (ht0 : s0.trace = s.trace) (hs0 : s0.sd_status = s.sd_status)
    (h1 : t.trace = s0.trace ++ calls) (h2 : loop_shape calls returned ret)
    (h3 : calls_follow_schedule s0 calls) :
    t.trace = s.trace ++ calls_made s t ∧ calls_follow_schedule s (calls_made s t) ∧
    first_failure_aborts (calls_made s t) ret := by
  rw [ht0] at h1
  have hc : calls_made s t = calls := by
    unfold calls_made
    rw [h1]
    exact List.drop_left _ _
  rw [hc]
  refine ⟨h1, ?_, first_failure_aborts_of_shape calls returned ret h2⟩
  intro k hk
  have := h3 k hk
  rw [hs0, ht0] at this
  exact this

theorem program_trace_ret (cfg : Config) (b : Nat → Nat) (addr size : Nat) (s : Dev) :
    (program cfg b addr size s).1 = (program_loop cfg b BD_ERROR_OK 0 addr size s.lock).2.1 ∧
    (program cfg b addr size s).2.trace =
      (program_loop cfg b BD_ERROR_OK 0 addr size s.lock).2.2.trace := by
  unfold program
  simp only []
  split <;> exact ⟨rfl, rfl⟩

theorem read_trace_ret (out : Nat → Nat) (addr size : Nat) (s : Dev) :
    (read out addr size s).1 = (read_loop out BD_ERROR_OK 0 addr size s.lock).2.1 ∧
    (read out addr size s).2.2.trace =
      (read_loop out BD_ERROR_OK 0 addr size s.lock).2.2.2.trace := by
  unfold read
  simp only []
  split <;> exact ⟨rfl, rfl⟩

/-! ## Failure of the first device call -/

/-- When the first sector device call of `program` fails, `program` returns that
status through the `return err;` in the loop, with `_lock` still held. -/
theorem program_first_call_fails (cfg : Config) (b : Nat → Nat) (addr size : Nat) (s : Dev)
    (hsz : size ≠ 0) (hf : s.sd_status s.trace.length ≠ BD_ERROR_OK) :
    (program cfg b addr size s).1 = s.sd_status s.trace.length ∧
    (program cfg b addr size s).2._lock = s._lock + 1 := by
  have h : program_loop cfg b BD_ERROR_OK 0 addr size s.lock =
      (true, s.sd_status s.trace.length,
        (NuSDBlockDevice.read s.lock (window_addr addr) (window_len addr size)).2) := by
    rw [program_loop]
    simp [hsz, NuSDBlockDevice.read, Dev.lock, hf]
  simp only [program, h]
  simp [NuSDBlockDevice.read, Dev.lock, hf]

/-- When the first sector device call of `read` fails, `read` returns that
status through the `return err;` in the loop, with `_lock` still held. -/
theorem read_first_call_fails (out : Nat → Nat) (addr size : Nat) (s : Dev)
    (hsz : size ≠ 0) (hf : s.sd_status s.trace.length ≠ BD_ERROR_OK) :
    (read out addr size s).1 = s.sd_status s.trace.length ∧
    (read out addr size s).2.2._lock = s._lock + 1 := by
  have h : read_loop out BD_ERROR_OK 0 addr size s.lock =
      (true, s.sd_status s.trace.length, out,
        (NuSDBlockDevice.read s.lock (window_addr addr) (window_len addr size)).2) := by
    rw [read_loop]
    simp [hsz, NuSDBlockDevice.read, Dev.lock, hf]
  simp only [read, h]
  simp [NuSDBlockDevice.read, Dev.lock, hf]

/-- When the first sector device call of `erase` fails, `erase` returns that
status through the `return err;` in the loop, with `_lock` still held. -/
theorem erase_first_call_fails (cfg : Config) (addr size : Nat) (s : Dev)
    (hlt : erase_addr_pos cfg addr < erase_addr_end cfg addr size)
    (hf : s.sd_status s.trace.length ≠ BD_ERROR_OK) :
    (erase cfg addr size s).1 = s.sd_status s.trace.length ∧
    (erase cfg addr size s).2._lock = s._lock + 1 := by
  have h : ∀ (hb : erase_bounds (erase_addr_pos cfg addr) (erase_addr_end cfg addr size))
      (s1 : Dev), s1.sd_status s1.trace.length ≠ BD_ERROR_OK →
      erase_loop BD_ERROR_OK (erase_addr_pos cfg addr) (erase_addr_end cfg addr size) hb s1 =
        (true, s1.sd_status s1.trace.length,
          (NuSDBlockDevice.program s1 (erase_addr_pos cfg addr) SDH_SECTOR_SIZE).2) := by
    intro hb s1 hf1
    rw [erase_loop]
    simp [hlt, NuSDBlockDevice.program, hf1]
  unfold erase
  simp only []
  rw [h _ { s.lock with dma_buff := memset s.lock.dma_buff 0 0xFF SDH_SECTOR_SIZE } hf]
  simp [NuSDBlockDevice.program, Dev.lock, hf]

/-! ## Requests of size 0 -/

theorem lock_unlock (s : Dev) : s.lock.unlock = s := by
  cases s
  simp [Dev.lock, Dev.unlock]

theorem program_size_zero (cfg : Config) (b : Nat → Nat) (addr : Nat) (s : Dev) :
    program cfg b addr 0 s = (BD_ERROR_OK, s) := by
  have h : program_loop cfg b BD_ERROR_OK 0 addr 0 s.lock = (false, BD_ERROR_OK, s.lock) := by
    rw [program_loop]
    simp
  simp only [program, h, Bool.false_eq_true, if_false, lock_unlock]

theorem read_size_zero (out : Nat → Nat) (addr : Nat) (s : Dev) :
    read out addr 0 s = (BD_ERROR_OK, out, s) := by
  have h : read_loop out BD_ERROR_OK 0 addr 0 s.lock = (false, BD_ERROR_OK, out, s.lock) := by
    rw [read_loop]
    simp
  simp only [read, h, Bool.false_eq_true, if_false, lock_unlock]

/-- Rounding `q * E + E - 1` down to a multiple of `E` gives `q * E`. -/
theorem round_down_succ_pred (q E : Nat) (hE : 0 < E) : (q * E + E - 1) / E * E = q * E := by
  have h1 : q * E + E - 1 = (E - 1) + E * q := by
    rw [Nat.mul_comm E q]
    omega
  rw [h1, Nat.add_mul_div_left _ _ hE, Nat.div_eq_of_lt (by omega), Nat.zero_add]

/-- With size 0 the end computed by `erase` is not above the rounded start, so the
`for` loop body is never entered. -/
theorem erase_addr_end_zero (cfg : Config) (addr : Nat) (h : addr < 2 ^ 64) :
    erase_addr_end cfg addr 0 ≤ erase_addr_pos cfg addr := by
  unfold erase_addr_end
  rw [erase_addr_pos_eq cfg addr h]
  have hq := Nat.div_mul_le_self addr cfg.NU_SDH_FLASH_SECTOR_SIZE
  generalize addr / cfg.NU_SDH_FLASH_SECTOR_SIZE = q at hq ⊢
  generalize cfg.NU_SDH_FLASH_SECTOR_SIZE = E at hq ⊢
  by_cases hE : E = 0
  · subst hE
    simp [mul_u64]
  · have hE0 : 0 < E := Nat.pos_of_ne_zero hE
    have hkey := round_down_succ_pred q E hE0
    by_cases hw : q * E + E ≤ 2 ^ 64
    · have hY : sub_u64 (add_u64 (add_u64 (q * E) 0) E) 1 = q * E + E - 1 := by
        unfold sub_u64 add_u64
        generalize q * E = p at *
        omega
      rw [hY]
      unfold mul_u64
      rw [hkey]
      exact Nat.mod_le _ _
    · have hY : sub_u64 (add_u64 (add_u64 (q * E) 0) E) 1 < E := by
        unfold sub_u64 add_u64
        generalize q * E = p at *
        omega
      rw [Nat.div_eq_of_lt hY]
      simp [mul_u64]

theorem erase_size_zero (cfg : Config) (addr : Nat) (s : Dev) (h : addr < 2 ^ 64) :
    (erase cfg addr 0 s).1 = BD_ERROR_OK ∧ (erase cfg addr 0 s).2.card = s.card ∧
    (erase cfg addr 0 s).2.trace = s.trace ∧ (erase cfg addr 0 s).2._lock = s._lock ∧
    (erase cfg addr 0 s).2.sd_status = s.sd_status := by
  have hz := erase_addr_end_zero cfg addr h
  have hl : ∀ (hb : erase_bounds (erase_addr_pos cfg addr) (erase_addr_end cfg addr 0))
      (s1 : Dev), erase_loop BD_ERROR_OK (erase_addr_pos cfg addr) (erase_addr_end cfg addr 0)
        hb s1 = (false, BD_ERROR_OK, s1) := by
    intro hb s1
    rw [erase_loop, dif_neg (by omega)]
  unfold erase
  simp only []
  rw [hl]
  simp [Dev.lock, Dev.unlock]

/-! ## Sector alignment of the device calls -/

theorem window_call_aligned (is_program : Bool) (addr_pos rmn : Nat) (err : Int)
    (hr : rmn ≠ 0) :
    sector_aligned_call ⟨is_program, window_addr addr_pos, window_len addr_pos rmn, err⟩ := by
  have h1 := window_addr_eq addr_pos
  have h2 := window_len_eq addr_pos rmn hr
  unfold sector_aligned_call SDH_SECTOR_SIZE
  simp only [h2]
  refine ⟨?_, by decide, by decide⟩
  omega

theorem forall_mem_cons_of (P : DevCall → Prop) (c : DevCall) (l : List DevCall)
    (h0 : P c) (h : ∀ x ∈ l, P x) : ∀ x ∈ c :: l, P x := by
  intro x hx
  rcases List.mem_cons.mp hx with rfl | hx
  · exact h0
  · exact h x hx

/-- Every call made by the `program` loop is on whole sectors, for any schedule
of device failures. -/
theorem program_loop_calls_aligned (cfg : Config) (b : Nat → Nat) (rmn : Nat) :
    ∀ (b_pos addr_pos : Nat) (s : Dev),
    ∃ calls, (program_loop cfg b BD_ERROR_OK b_pos addr_pos rmn s).2.2.trace = s.trace ++ calls ∧
      ∀ c ∈ calls, sector_aligned_call c := by
  induction rmn using Nat.strong_induction_on with
  | _ rmn ih =>
    intro b_pos addr_pos s
    rw [program_loop]
    by_cases hr : rmn = 0
    · rw [dif_pos hr]
      exact ⟨[], by simp, fun _ hx => absurd hx (List.not_mem_nil _)⟩
    · rw [dif_neg hr]
      have hpos := todo_size_pos addr_pos rmn hr
      have hlt : rmn - todo_size addr_pos rmn < rmn := by omega
      simp only []
      generalize hrd : NuSDBlockDevice.read s (window_addr addr_pos) (window_len addr_pos rmn) = r
      obtain ⟨t1, _, _⟩ := sd_read_cases _ _ _ _ hrd
      obtain ⟨e1, s1⟩ := r
      simp only at t1 ⊢
      have a1 := window_call_aligned false addr_pos rmn e1 hr
      by_cases hf : e1 = BD_ERROR_OK
      · subst hf
        simp only [ne_eq, not_true_eq_false, if_false]
        generalize hwr : NuSDBlockDevice.program _ (window_addr addr_pos)
          (window_len addr_pos rmn) = w
        obtain ⟨t2, _, _⟩ := sd_program_cases _ _ _ _ hwr
        obtain ⟨e2, s2⟩ := w
        simp only at t2 ⊢
        have a2 := window_call_aligned true addr_pos rmn e2 hr
        by_cases hf2 : e2 = BD_ERROR_OK
        · subst hf2
          simp only [not_true_eq_false, if_false]
          obtain ⟨calls, hc1, hc2⟩ := ih _ hlt (b_pos + todo_size addr_pos rmn)
            (add_u64 addr_pos (todo_size addr_pos rmn)) s2
          refine ⟨_ :: _ :: calls, ?_, forall_mem_cons_of _ _ _ a1
            (forall_mem_cons_of _ _ _ a2 hc2)⟩
          rw [hc1, t2, t1]
          simp
        · rw [if_pos hf2]
          refine ⟨[_, _], ?_, forall_mem_cons_of _ _ _ a1
            (forall_mem_cons_of _ _ _ a2 (fun _ hx => absurd hx (List.not_mem_nil _)))⟩
          simp only []
          rw [t2, t1]
          simp
      · rw [if_pos hf]
        exact ⟨[_], t1, forall_mem_cons_of _ _ _ a1 (fun _ hx => absurd hx (List.not_mem_nil _))⟩

/-- Every call made by the `read` loop is on whole sectors, for any schedule of
device failures. -/
theorem read_loop_calls_aligned (rmn : Nat) :
    ∀ (out : Nat → Nat) (b_pos addr_pos : Nat) (s : Dev),
    ∃ calls, (read_loop out BD_ERROR_OK b_pos addr_pos rmn s).2.2.2.trace = s.trace ++ calls ∧
      ∀ c ∈ calls, sector_aligned_call c := by
  induction rmn using Nat.strong_induction_on with
  | _ rmn ih =>
    intro out b_pos addr_pos s
    rw [read_loop]
    by_cases hr : rmn = 0
    · rw [dif_pos hr]
      exact ⟨[], by simp, fun _ hx => absurd hx (List.not_mem_nil _)⟩
    · rw [dif_neg hr]
      have hpos := todo_size_pos addr_pos rmn hr
      have hlt : rmn - todo_size addr_pos rmn < rmn := by omega
      simp only []
      generalize hrd : NuSDBlockDevice.read s (window_addr addr_pos) (window_len addr_pos rmn) = r
      obtain ⟨t1, _, _⟩ := sd_read_cases _ _ _ _ hrd
      obtain ⟨e1, s1⟩ := r
      simp only at t1 ⊢
      have a1 := window_call_aligned false addr_pos rmn e1 hr
      by_cases hf : e1 = BD_ERROR_OK
      · subst hf
        simp only [ne_eq, not_true_eq_false, if_false]
        obtain ⟨calls, hc1, hc2⟩ := ih _ hlt
          (memcpy out b_pos s1.dma_buff (sector_offset addr_pos) (todo_size addr_pos rmn))
          (b_pos + todo_size addr_pos rmn) (add_u64 addr_pos (todo_size addr_pos rmn)) s1
        refine ⟨_ :: calls, ?_, forall_mem_cons_of _ _ _ a1 hc2⟩
        rw [hc1, t1]
        simp
      · rw [if_pos hf]
        exact ⟨[_], t1, forall_mem_cons_of _ _ _ a1 (fun _ hx => absurd hx (List.not_mem_nil _))⟩

/-- Every call made by the `for` loop of `erase` is on one whole sector, for any
schedule of device failures. -/
theorem erase_loop_calls_aligned (n : Nat) : ∀ (p e : Nat) (h : erase_bounds p e) (s : Dev),
    e - p = n →
    ∃ calls, (erase_loop BD_ERROR_OK p e h s).2.2.trace = s.trace ++ calls ∧
      ∀ c ∈ calls, sector_aligned_call c := by
  induction n using Nat.strong_induction_on with
  | _ n ih =>
    intro p e h s hn
    rw [erase_loop]
    by_cases hlt : p < e
    · rw [dif_pos hlt]
      have hb := h
      unfold erase_bounds SDH_SECTOR_SIZE at hb
      have hnext : add_u64 p SDH_SECTOR_SIZE = p + 512 := by
        unfold add_u64 SDH_SECTOR_SIZE
        omega
      have hb2 : erase_bounds (add_u64 p SDH_SECTOR_SIZE) e := by
        unfold erase_bounds
        rw [hnext]
        unfold SDH_SECTOR_SIZE
        omega
      simp only []
      generalize hwr : NuSDBlockDevice.program s p SDH_SECTOR_SIZE = w
      obtain ⟨t2, _, _⟩ := sd_program_cases _ _ _ _ hwr
      obtain ⟨e2, s2⟩ := w
      simp only at t2 ⊢
      have a2 : sector_aligned_call ⟨true, p, SDH_SECTOR_SIZE, e2⟩ := by
        unfold sector_aligned_call SDH_SECTOR_SIZE
        exact ⟨hb.1, by norm_num, by norm_num⟩
      by_cases hf2 : e2 = BD_ERROR_OK
      · subst hf2
        simp only [ne_eq, not_true_eq_false, if_false]
        obtain ⟨calls, hc1, hc2⟩ :=
          ih (e - add_u64 p SDH_SECTOR_SIZE) (by omega) (add_u64 p SDH_SECTOR_SIZE) e hb2 s2 rfl
        refine ⟨_ :: calls, ?_, forall_mem_cons_of _ _ _ a2 hc2⟩
        rw [hc1, t2]
        simp
      · rw [if_pos hf2]
        exact ⟨[_], t2, forall_mem_cons_of _ _ _ a2 (fun _ hx => absurd hx (List.not_mem_nil _))⟩
    · rw [dif_neg hlt]
      exact ⟨[], by simp, fun _ hx => absurd hx (List.not_mem_nil _)⟩

theorem erase_trace_ret (cfg : Config) (addr size : Nat) (s : Dev) :
    (erase cfg addr size s).1 = (erase_loop BD_ERROR_OK (erase_addr_pos cfg addr)
      (erase_addr_end cfg addr size)
      ⟨mul_u64_erase_unit_aligned cfg _, mul_u64_erase_unit_aligned cfg _,
        Nat.mod_lt _ (by norm_num)⟩
      { s.lock with dma_buff := memset s.lock.dma_buff 0 0xFF SDH_SECTOR_SIZE }).2.1 ∧
    (erase cfg addr size s).2.trace = (erase_loop BD_ERROR_OK (erase_addr_pos cfg addr)
      (erase_addr_end cfg addr size)
      ⟨mul_u64_erase_unit_aligned cfg _, mul_u64_erase_unit_aligned cfg _,
        Nat.mod_lt _ (by norm_num)⟩
      { s.lock with dma_buff := memset s.lock.dma_buff 0 0xFF SDH_SECTOR_SIZE }).2.2.trace ∧
    (erase cfg addr size s).2.card = (erase_loop BD_ERROR_OK (erase_addr_pos cfg addr)
      (erase_addr_end cfg addr size)
      ⟨mul_u64_erase_unit_aligned cfg _, mul_u64_erase_unit_aligned cfg _,
        Nat.mod_lt _ (by norm_num)⟩
      { s.lock with dma_buff := memset s.lock.dma_buff 0 0xFF SDH_SECTOR_SIZE }).2.2.card := by
  unfold erase
  simp only []
  split <;> exact ⟨rfl, rfl, rfl⟩

theorem calls_made_of_append (s s0 t : Dev) (calls : List DevCall) (ht0 : s0.trace = s.trace)
    (h : t.trace = s0.trace ++ calls) : calls_made s t = calls := by
  unfold calls_made
  rw [h, ht0]
  exact List.drop_left _ _

/-! ## erase, any schedule of device failures -/

/-- A sector device write, failed or not, leaves every card byte outside the
written range. -/
theorem sd_program_card_frame (s : Dev) (addr size : Nat) (w : Int × Dev)
    (h : NuSDBlockDevice.program s addr size = w) (L : Nat)
    (hL : ¬(addr ≤ L ∧ L < addr + size)) : w.2.card L = s.card L := by
  subst h
  unfold NuSDBlockDevice.program
  simp only []
  split
  · rfl
  · simp only [memcpy]
    rw [if_neg hL]

/-- The `for` loop of `erase` leaves every card byte outside `[p, e)`, whether
it runs to its end or is left after a failed call. -/
theorem erase_loop_frame (n : Nat) : ∀ (p e : Nat) (h : erase_bounds p e) (s : Dev),
    e - p = n → ∀ L, ¬(p ≤ L ∧ L < e) →
    (erase_loop BD_ERROR_OK p e h s).2.2.card L = s.card L := by
  induction n using Nat.strong_induction_on with
  | _ n ih =>
    intro p e h s hn L hL
    rw [erase_loop]
    by_cases hlt : p < e
    · rw [dif_pos hlt]
      have hb := h
      unfold erase_bounds SDH_SECTOR_SIZE at hb
      have hnext : add_u64 p SDH_SECTOR_SIZE = p + 512 := by
        unfold add_u64 SDH_SECTOR_SIZE
        omega
      have hb2 : erase_bounds (add_u64 p SDH_SECTOR_SIZE) e := by
        unfold erase_bounds
        rw [hnext]
        unfold SDH_SECTOR_SIZE
        omega
      simp only []
      generalize hwr : NuSDBlockDevice.program s p SDH_SECTOR_SIZE = w
      have hc := sd_program_card_frame _ _ _ _ hwr L (by
        unfold SDH_SECTOR_SIZE
        omega)
      obtain ⟨e2, s2⟩ := w
      simp only at hc ⊢
      by_cases hf2 : e2 = BD_ERROR_OK
      · subst hf2
        simp only [ne_eq, not_true_eq_false, if_false]
        rw [ih (e - add_u64 p SDH_SECTOR_SIZE) (by omega) (add_u64 p SDH_SECTOR_SIZE) e hb2 s2 rfl
          L (by rw [hnext]; omega)]
        exact hc
      · rw [if_pos hf2]
        exact hc
    · rw [dif_neg hlt]

/-- The end computed by `erase` is never above the end of the covering range. -/
theorem erase_addr_end_le_ceil (cfg : Config) (addr size : Nat) (h : addr < 2 ^ 64) :
    erase_addr_end cfg addr size ≤ unit_ceil cfg (addr + size) := by
  unfold erase_addr_end unit_ceil
  rw [erase_addr_pos_eq cfg addr h]
  have hq := Nat.div_mul_le_self addr cfg.NU_SDH_FLASH_SECTOR_SIZE
  generalize addr / cfg.NU_SDH_FLASH_SECTOR_SIZE * cfg.NU_SDH_FLASH_SECTOR_SIZE = p at hq ⊢
  generalize cfg.NU_SDH_FLASH_SECTOR_SIZE = E at hq ⊢
  by_cases hE : E = 0
  · subst hE
    simp [mul_u64]
  · have hY : sub_u64 (add_u64 (add_u64 p size) E) 1 ≤ addr + size + E - 1 := by
      unfold sub_u64 add_u64
      omega
    calc mul_u64 (sub_u64 (add_u64 (add_u64 p size) E) 1 / E) E
        ≤ sub_u64 (add_u64 (add_u64 p size) E) 1 / E * E := Nat.mod_le _ _
      _ ≤ (addr + size + E - 1) / E * E :=
          Nat.mul_le_mul_right E (Nat.div_le_div_right hY)

/-! ## The sequence of windows -/

theorem window_sizes_zero (addr_pos : Nat) : window_sizes addr_pos 0 = [] := by
  rw [window_sizes]
  simp

theorem window_sizes_cons (addr_pos rmn : Nat) (hr : rmn ≠ 0) :
    window_sizes addr_pos rmn =
      todo_size addr_pos rmn ::
        window_sizes (add_u64 addr_pos (todo_size addr_pos rmn))
          (rmn - todo_size addr_pos rmn) := by
  rw [window_sizes, dif_neg hr]

theorem window_sizes_sum (rmn : Nat) : ∀ addr_pos, (window_sizes addr_pos rmn).sum = rmn := by
  induction rmn using Nat.strong_induction_on with
  | _ rmn ih =>
    intro addr_pos
    by_cases hr : rmn = 0
    · subst hr
      rw [window_sizes_zero]
      rfl
    · have hpos := todo_size_pos addr_pos rmn hr
      have hle := todo_size_le addr_pos rmn
      rw [window_sizes_cons addr_pos rmn hr, List.sum_cons, ih _ (by omega)]
      omega

theorem window_sizes_pos (rmn : Nat) :
    ∀ addr_pos, ∀ t ∈ window_sizes addr_pos rmn, 1 ≤ t := by
  induction rmn using Nat.strong_induction_on with
  | _ rmn ih =>
    intro addr_pos t ht
    by_cases hr : rmn = 0
    · subst hr
      rw [window_sizes_zero] at ht
      exact absurd ht (List.not_mem_nil _)
    · have hpos := todo_size_pos addr_pos rmn hr
      rw [window_sizes_cons addr_pos rmn hr] at ht
      rcases List.mem_cons.mp ht with rfl | ht
      · exact hpos
      · exact ih _ (by omega) _ t ht

theorem window_sizes_length (rmn : Nat) : ∀ addr_pos,
    (window_sizes addr_pos rmn).length =
      if rmn = 0 then 0 else (addr_pos % 512 + rmn + 511) / 512 := by
  induction rmn using Nat.strong_induction_on with
  | _ rmn ih =>
    intro addr_pos
    by_cases hr : rmn = 0
    · subst hr
      rw [window_sizes_zero]
      rfl
    · have hpos := todo_size_pos addr_pos rmn hr
      have hts := todo_size_eq addr_pos rmn
      rw [window_sizes_cons addr_pos rmn hr, List.length_cons, ih _ (by omega), if_neg hr]
      unfold add_u64
      generalize todo_size addr_pos rmn = t at *
      split <;> omega

theorem sectors_touched_eq (addr size : Nat) :
    sectors_touched addr size = if size = 0 then 0 else (addr % 512 + size + 511) / 512 := by
  unfold sectors_touched
  by_cases hz : size = 0
  · subst hz
    rw [if_pos rfl, Finset.card_eq_zero, Finset.filter_eq_empty_iff]
    intro k _
    omega
  · rw [if_neg hz]
    have hset : (Finset.range ((addr + size) / 512 + 1)).filter
        (fun k => max (k * 512) addr < min ((k + 1) * 512) (addr + size)) =
        Finset.Icc (addr / 512) ((addr + size - 1) / 512) := by
      ext k
      simp only [Finset.mem_filter, Finset.mem_range, Finset.mem_Icc]
      omega
    rw [hset, Nat.card_Icc]
    omega

/-- When the sector device does not fail the `read` loop runs to its end and
makes one device call per window. -/
theorem read_loop_call_count (rmn : Nat) :
    ∀ (out : Nat → Nat) (b_pos addr_pos : Nat) (s : Dev), never_fails s →
    (read_loop out BD_ERROR_OK b_pos addr_pos rmn s).1 = false ∧
    (read_loop out BD_ERROR_OK b_pos addr_pos rmn s).2.1 = BD_ERROR_OK ∧
    ∃ calls, (read_loop out BD_ERROR_OK b_pos addr_pos rmn s).2.2.2.trace = s.trace ++ calls ∧
      calls.length = (window_sizes addr_pos rmn).length ∧
      ∀ c ∈ calls, c.is_program = false := by
  induction rmn using Nat.strong_induction_on with
  | _ rmn ih =>
    intro out b_pos addr_pos s hs
    rw [read_loop]
    by_cases hr : rmn = 0
    · rw [dif_pos hr]
      subst hr
      rw [window_sizes_zero]
      exact ⟨rfl, rfl, [], by simp, rfl, fun _ hx => absurd hx (List.not_mem_nil _)⟩
    · rw [dif_neg hr, window_sizes_cons addr_pos rmn hr]
      have hpos := todo_size_pos addr_pos rmn hr
      have hlt : rmn - todo_size addr_pos rmn < rmn := by omega
      simp only []
      generalize hrd : NuSDBlockDevice.read s (window_addr addr_pos) (window_len addr_pos rmn) = r
      obtain ⟨t1, u1, v1⟩ := sd_read_cases _ _ _ _ hrd
      obtain ⟨e1, s1⟩ := r
      simp only at t1 u1 v1 ⊢
      have hf : e1 = BD_ERROR_OK := by
        rw [v1]
        exact hs _
      subst hf
      have hs1 : never_fails s1 := fun k => by
        rw [u1]
        exact hs k
      simp only [ne_eq, not_true_eq_false, if_false]
      obtain ⟨h1, h2, calls, hc1, hc2, hc3⟩ := ih _ hlt
        (memcpy out b_pos s1.dma_buff (sector_offset addr_pos) (todo_size addr_pos rmn))
        (b_pos + todo_size addr_pos rmn) (add_u64 addr_pos (todo_size addr_pos rmn)) s1 hs1
      refine ⟨h1, h2, _ :: calls, ?_, ?_, forall_mem_cons_of (fun c => c.is_program = false)
        ⟨false, window_addr addr_pos, window_len addr_pos rmn, BD_ERROR_OK⟩ _ rfl hc3⟩
      · rw [hc1, t1]
        simp
      · simp [hc2]

/-- When the sector device does not fail the `program` loop runs to its end and
makes one device read and one device write per window. -/
theorem program_loop_call_count (cfg : Config) (b : Nat → Nat) (rmn : Nat) :
    ∀ (b_pos addr_pos : Nat) (s : Dev), never_fails s →
    (program_loop cfg b BD_ERROR_OK b_pos addr_pos rmn s).1 = false ∧
    (program_loop cfg b BD_ERROR_OK b_pos addr_pos rmn s).2.1 = BD_ERROR_OK ∧
    ∃ calls, (program_loop cfg b BD_ERROR_OK b_pos addr_pos rmn s).2.2.trace = s.trace ++ calls ∧
      (calls.filter (fun c => !c.is_program)).length = (window_sizes addr_pos rmn).length ∧
      (calls.filter (fun c => c.is_program)).length = (window_sizes addr_pos rmn).length := by
  induction rmn using Nat.strong_induction_on with
  | _ rmn ih =>
    intro b_pos addr_pos s hs
    rw [program_loop]
    by_cases hr : rmn = 0
    · rw [dif_pos hr]
      subst hr
      rw [window_sizes_zero]
      exact ⟨rfl, rfl, [], by simp, rfl, rfl⟩
    · rw [dif_neg hr, window_sizes_cons addr_pos rmn hr]
      have hpos := todo_size_pos addr_pos rmn hr
      have hlt : rmn - todo_size addr_pos rmn < rmn := by omega
      simp only []
      generalize hrd : NuSDBlockDevice.read s (window_addr addr_pos) (window_len addr_pos rmn) = r
      obtain ⟨t1, u1, v1⟩ := sd_read_cases _ _ _ _ hrd
      obtain ⟨e1, s1⟩ := r
      simp only at t1 u1 v1 ⊢
      have hf : e1 = BD_ERROR_OK := by
        rw [v1]
        exact hs _
      subst hf
      simp only [ne_eq, not_true_eq_false, if_false]
      generalize hwr : NuSDBlockDevice.program _ (window_addr addr_pos)
        (window_len addr_pos rmn) = w
      obtain ⟨t2, u2, v2⟩ := sd_program_cases _ _ _ _ hwr
      obtain ⟨e2, s2⟩ := w
      simp only at t2 u2 v2 ⊢
      have hf2 : e2 = BD_ERROR_OK := by
        rw [v2, u1]
        exact hs _
      subst hf2
      have hs2 : never_fails s2 := fun k => by
        rw [u2, u1]
        exact hs k
      simp only [not_true_eq_false, if_false]
      obtain ⟨h1, h2, calls, hc1, hc2, hc3⟩ := ih _ hlt (b_pos + todo_size addr_pos rmn)
        (add_u64 addr_pos (todo_size addr_pos rmn)) s2 hs2
      refine ⟨h1, h2, ⟨false, window_addr addr_pos, window_len addr_pos rmn, BD_ERROR_OK⟩ ::
        ⟨true, window_addr addr_pos, window_len addr_pos rmn, BD_ERROR_OK⟩ :: calls, ?_, ?_, ?_⟩
      · rw [hc1, t2, t1]
        simp
      · simp [hc2]
      · simp [hc3]

/-! ## The device address of a window -/

/-- Below `2 ^ 32` the byte address passed to the device is the exact sector
start `floor(addr_pos / 512) * 512`. -/
theorem window_addr_exact_below_4GiB (addr_pos : Nat) (h : addr_pos < 2 ^ 32) :
    window_addr addr_pos = addr_pos / 512 * 512 := by
  rw [window_addr_eq]
  omega

/-- The length passed to the device is the exact length of the covering sector
range, `(ceil((addr_pos + w) / 512) - floor(addr_pos / 512)) * 512` with `w` the
window length, for every address. -/
theorem window_len_exact (addr_pos rmn : Nat) (hr : rmn ≠ 0) :
    window_len addr_pos rmn =
      ((addr_pos + todo_size addr_pos rmn + 511) / 512 - addr_pos / 512) * 512 := by
  have h1 := todo_size_eq addr_pos rmn
  rw [window_len_eq addr_pos rmn hr]
  generalize todo_size addr_pos rmn = t at *
  omega

/-- Calls made by `read` for a request that lies in one sector, on a device
that does not fail on the next call: one device read. -/
theorem read_single_window (out : Nat → Nat) (addr size : Nat) (s : Dev) (hr : size ≠ 0)
    (hfit : addr % 512 + size ≤ 512) (hok : s.sd_status s.trace.length = BD_ERROR_OK) :
    calls_made s (read out addr size s).2.2 =
      [⟨false, window_addr addr, window_len addr size, BD_ERROR_OK⟩] := by
  have ht : todo_size addr size = size := by
    rw [todo_size_eq]
    omega
  have hl : (read_loop out BD_ERROR_OK 0 addr size s.lock).2.2.2.trace =
      s.lock.trace ++ [⟨false, window_addr addr, window_len addr size, BD_ERROR_OK⟩] := by
    rw [read_loop, dif_neg hr]
    simp only [sd_read_ok s.lock _ _ hok, ne_eq, not_true_eq_false, if_false, ht, Nat.sub_self]
    rw [read_loop, dif_pos rfl]
  obtain ⟨_, e2⟩ := read_trace_ret out addr size s
  exact calls_made_of_append s s.lock _ _ rfl (by rw [e2, hl])

/-- Calls made by `program` for a request that lies in one sector, on a device
that does not fail on the next two calls: one device read, one device write. -/
theorem program_single_window (cfg : Config) (b : Nat → Nat) (addr size : Nat) (s : Dev)
    (hr : size ≠ 0) (hfit : addr % 512 + size ≤ 512)
    (hok : s.sd_status s.trace.length = BD_ERROR_OK)
    (hok2 : s.sd_status (s.trace.length + 1) = BD_ERROR_OK) :
    calls_made s (program cfg b addr size s).2 =
      [⟨false, window_addr addr, window_len addr size, BD_ERROR_OK⟩,
        ⟨true, window_addr addr, window_len addr size, BD_ERROR_OK⟩] := by
  have ht : todo_size addr size = size := by
    rw [todo_size_eq]
    omega
  have hl : (program_loop cfg b BD_ERROR_OK 0 addr size s.lock).2.2.trace =
      s.lock.trace ++ [⟨false, window_addr addr, window_len addr size, BD_ERROR_OK⟩,
        ⟨true, window_addr addr, window_len addr size, BD_ERROR_OK⟩] := by
    rw [program_loop, dif_neg hr]
    simp only [sd_read_ok s.lock _ _ hok, ne_eq, not_true_eq_false, if_false]
    rw [sd_program_ok _ _ _ (by simpa [Dev.lock] using hok2)]
    simp only [not_true_eq_false, if_false, ht, Nat.sub_self]
    rw [program_loop, dif_pos rfl]
    simp
  obtain ⟨_, e2⟩ := program_trace_ret cfg b addr size s
  exact calls_made_of_append s s.lock _ _ rfl (by rw [e2, hl])

/-! ## program, window by window -/

/-- The device read of a window fails: `program` is left at once. -/
theorem program_loop_read_fails (cfg : Config) (b : Nat → Nat) (b_pos addr_pos rmn : Nat)
    (s : Dev) (hr : rmn ≠ 0) (hf : s.sd_status s.trace.length ≠ BD_ERROR_OK) :
    program_loop cfg b BD_ERROR_OK b_pos addr_pos rmn s =
      (true, s.sd_status s.trace.length,
        { s with trace := s.trace ++ [⟨false, window_addr addr_pos, window_len addr_pos rmn,
            s.sd_status s.trace.length⟩] }) := by
  rw [program_loop, dif_neg hr]
  simp [NuSDBlockDevice.read, hf]

/-- The device read of a window succeeds and its device write fails: `program`
is left with the card as before the window. -/
theorem program_loop_write_fails (cfg : Config) (b : Nat → Nat) (b_pos addr_pos rmn : Nat)
    (s : Dev) (hr : rmn ≠ 0) (hok : s.sd_status s.trace.length = BD_ERROR_OK)
    (hf : s.sd_status (s.trace.length + 1) ≠ BD_ERROR_OK) :
    (program_loop cfg b BD_ERROR_OK b_pos addr_pos rmn s).1 = true ∧
    (program_loop cfg b BD_ERROR_OK b_pos addr_pos rmn s).2.1
      = s.sd_status (s.trace.length + 1) ∧
    (program_loop cfg b BD_ERROR_OK b_pos addr_pos rmn s).2.2.card = s.card ∧
    (program_loop cfg b BD_ERROR_OK b_pos addr_pos rmn s).2.2.trace =
      s.trace ++ [⟨false, window_addr addr_pos, window_len addr_pos rmn, BD_ERROR_OK⟩,
        ⟨true, window_addr addr_pos, window_len addr_pos rmn,
          s.sd_status (s.trace.length + 1)⟩] := by
  rw [program_loop, dif_neg hr]
  simp [sd_read_ok s _ _ hok, NuSDBlockDevice.program, hf]

/-- Both device calls of a window succeed: the loop goes on from a state whose
card differs from the card before in the bytes of the window only. -/
theorem program_loop_window_ok (cfg : Config) (b : Nat → Nat) (b_pos addr_pos rmn : Nat)
    (s : Dev) (hr : rmn ≠ 0) (hok : s.sd_status s.trace.length = BD_ERROR_OK)
    (hok2 : s.sd_status (s.trace.length + 1) = BD_ERROR_OK) :
    ∃ s2 : Dev,
      program_loop cfg b BD_ERROR_OK b_pos addr_pos rmn s =
        program_loop cfg b BD_ERROR_OK (b_pos + todo_size addr_pos rmn)
          (add_u64 addr_pos (todo_size addr_pos rmn)) (rmn - todo_size addr_pos rmn) s2 ∧
      (∀ L, s2.card L =
        if addr_pos % 2 ^ 32 ≤ L ∧ L < addr_pos % 2 ^ 32 + todo_size addr_pos rmn then
          merged_byte cfg (s.card L) (b (b_pos + (L - addr_pos % 2 ^ 32)))
        else s.card L) ∧
      s2.trace = s.trace ++ [⟨false, window_addr addr_pos, window_len addr_pos rmn, BD_ERROR_OK⟩,
        ⟨true, window_addr addr_pos, window_len addr_pos rmn, BD_ERROR_OK⟩] ∧
      s2._lock = s._lock ∧ s2.sd_status = s.sd_status := by
  obtain ⟨f1, f2, _, _, _⟩ := window_step addr_pos rmn hr
  rw [program_loop, dif_neg hr]
  simp only [sd_read_ok s _ _ hok, ne_eq, not_true_eq_false, if_false, merge_step_eq]
  rw [sd_program_ok _ _ _ (by simpa using hok2)]
  simp only [not_true_eq_false, if_false]
  refine ⟨_, rfl, ?_, by simp, rfl, rfl⟩
  intro L
  simp only [window_len_eq addr_pos rmn hr, sector_offset_eq]
  exact window_card (merged_byte cfg) b s.card s.dma_buff b_pos _ _ _ _ L f1 f2

theorem sum_take_le (l : List Nat) (m : Nat) : (l.take m).sum ≤ l.sum := by
  have := List.sum_take_add_sum_drop l m
  omega

/-- State of the card when the `program` loop ends, for any schedule of device
failures and a request of at most `2 ^ 32` bytes: with `m` the number of windows
completed, exactly the card bytes at `(addr_pos + i) % 2 ^ 32` for `i` in the
first `m` windows are merged with `b[b_pos + i]`; all other bytes are as before.
The loop ends normally after all windows (`2 * m` calls) or is left at the
failed read (`2 * m + 1` calls) or write (`2 * m + 2` calls) of window `m + 1`. -/
theorem program_loop_partial (cfg : Config) (b : Nat → Nat) (rmn : Nat) :
    ∀ (b_pos addr_pos : Nat) (s : Dev), rmn ≤ 2 ^ 32 →
    ∃ (m : Nat) (calls : List DevCall),
      m ≤ (window_sizes addr_pos rmn).length ∧
      (program_loop cfg b BD_ERROR_OK b_pos addr_pos rmn s).2.2.trace = s.trace ++ calls ∧
      ((program_loop cfg b BD_ERROR_OK b_pos addr_pos rmn s).1 = false →
        (program_loop cfg b BD_ERROR_OK b_pos addr_pos rmn s).2.1 = BD_ERROR_OK ∧
        m = (window_sizes addr_pos rmn).length ∧ calls.length = 2 * m) ∧
      ((program_loop cfg b BD_ERROR_OK b_pos addr_pos rmn s).1 = true →
        (program_loop cfg b BD_ERROR_OK b_pos addr_pos rmn s).2.1 ≠ BD_ERROR_OK ∧
        m < (window_sizes addr_pos rmn).length ∧
        (calls.length = 2 * m + 1 ∨ calls.length = 2 * m + 2)) ∧
      ∀ L, (program_loop cfg b BD_ERROR_OK b_pos addr_pos rmn s).2.2.card L =
        if L < 2 ^ 32 ∧ rel_index addr_pos L < ((window_sizes addr_pos rmn).take m).sum then
          merged_byte cfg (s.card L) (b (b_pos + rel_index addr_pos L))
        else s.card L := by
  induction rmn using Nat.strong_induction_on with
  | _ rmn ih =>
    intro b_pos addr_pos s hsz
    by_cases hr : rmn = 0
    · subst hr
      have h0 : program_loop cfg b BD_ERROR_OK b_pos addr_pos 0 s = (false, BD_ERROR_OK, s) := by
        rw [program_loop]
        simp
      rw [h0, window_sizes_zero]
      refine ⟨0, [], Nat.le_refl _, by simp, fun _ => ⟨rfl, rfl, rfl⟩, fun h => ?_, fun L => ?_⟩
      · simp at h
      · rw [if_neg]
        simp
    · have hpos := todo_size_pos addr_pos rmn hr
      have hle := todo_size_le addr_pos rmn
      rw [window_sizes_cons addr_pos rmn hr]
      by_cases hok : s.sd_status s.trace.length = BD_ERROR_OK
      · by_cases hok2 : s.sd_status (s.trace.length + 1) = BD_ERROR_OK
        · obtain ⟨s2, e1, e2, e3, _, _⟩ :=
            program_loop_window_ok cfg b b_pos addr_pos rmn s hr hok hok2
          obtain ⟨m, calls, i1, i2, i3, i4, i5⟩ := ih (rmn - todo_size addr_pos rmn) (by omega)
            (b_pos + todo_size addr_pos rmn) (add_u64 addr_pos (todo_size addr_pos rmn)) s2
            (by omega)
          rw [e1]
          refine ⟨m + 1,
            (⟨false, window_addr addr_pos, window_len addr_pos rmn, BD_ERROR_OK⟩ : DevCall) ::
              (⟨true, window_addr addr_pos, window_len addr_pos rmn, BD_ERROR_OK⟩ : DevCall) ::
              calls, by simpa using i1, ?_, ?_, ?_, ?_⟩
          · rw [i2, e3]
            simp
          · intro h
            obtain ⟨j1, j2, j3⟩ := i3 h
            exact ⟨j1, by simp [j2], by simp [j3]; omega⟩
          · intro h
            obtain ⟨j1, j2, j3⟩ := i4 h
            refine ⟨j1, by simpa using j2, ?_⟩
            simp only [List.length_cons]
            omega
          · intro L
            obtain ⟨_, _, _, f4, f5⟩ := window_step addr_pos rmn hr
            have f6 := window_addr_add_offset addr_pos
            have hD := sum_take_le (window_sizes (add_u64 addr_pos (todo_size addr_pos rmn))
              (rmn - todo_size addr_pos rmn)) m
            rw [window_sizes_sum] at hD
            rw [i5 L, List.take_succ_cons, List.sum_cons]
            unfold rel_index
            rw [f5]
            have hm := window_merge (merged_byte cfg) b s.card s2.card b_pos
              (todo_size addr_pos rmn + ((window_sizes (add_u64 addr_pos (todo_size addr_pos rmn))
                (rmn - todo_size addr_pos rmn)).take m).sum)
              (todo_size addr_pos rmn) (addr_pos % 2 ^ 32) L e2 hpos (by omega) (by omega)
              (by omega)
            rw [Nat.add_sub_cancel_left] at hm
            exact hm
        · obtain ⟨e1, e2, e3, e4⟩ :=
            program_loop_write_fails cfg b b_pos addr_pos rmn s hr hok hok2
          refine ⟨0, _, Nat.zero_le _, e4, fun h => ?_, fun _ => ?_, fun L => ?_⟩
          · rw [e1] at h
            simp at h
          · exact ⟨by rw [e2]; exact hok2, by simp, Or.inr rfl⟩
          · rw [e3, if_neg]
            simp
      · rw [program_loop_read_fails cfg b b_pos addr_pos rmn s hr hok]
        refine ⟨0, _, Nat.zero_le _, rfl, fun h => ?_, fun _ => ?_, fun L => ?_⟩
        · simp at h
        · exact ⟨hok, by simp, Or.inl rfl⟩
        · rw [if_neg]
          simp

/-- Source `program` at or below `2 ^ 32`, for any schedule of device failures.
With `m` the number of completed windows: a call that fails was left at the
device read (`2 * m + 1` calls made) or write (`2 * m + 2` calls made) of window
`m + 1`; the bytes of the first `m` windows hold the merged result, every other
byte of the card, in particular the bytes of window `m + 1` and later, is as
before the call; nothing is rolled back. -/
theorem program_abort_below_4GiB (cfg : Config) (b : Nat → Nat) (addr size : Nat) (s : Dev)
    (h : addr + size ≤ 2 ^ 32) :
    ∃ m : Nat, m ≤ (window_sizes addr size).length ∧
      ((program cfg b addr size s).1 = BD_ERROR_OK → m = (window_sizes addr size).length) ∧
      ((program cfg b addr size s).1 ≠ BD_ERROR_OK →
        m < (window_sizes addr size).length ∧
        ((calls_made s (program cfg b addr size s).2).length = 2 * m + 1 ∨
          (calls_made s (program cfg b addr size s).2).length = 2 * m + 2)) ∧
      ∀ L, (program cfg b addr size s).2.card L =
        if addr ≤ L ∧ L < addr + ((window_sizes addr size).take m).sum then
          merged_byte cfg (s.card L) (b (L - addr))
        else s.card L := by
  obtain ⟨m, calls, i1, i2, i3, i4, i5⟩ :=
    program_loop_partial cfg b size 0 addr s.lock (by omega)
  obtain ⟨e1, e2⟩ := program_trace_ret cfg b addr size s
  have hc := calls_made_of_append s s.lock (program cfg b addr size s).2 calls rfl
    (by rw [e2, i2])
  have hD := sum_take_le (window_sizes addr size) m
  rw [window_sizes_sum] at hD
  have hcard : (program cfg b addr size s).2.card =
      (program_loop cfg b BD_ERROR_OK 0 addr size s.lock).2.2.card := by
    unfold program
    simp only []
    split <;> rfl
  refine ⟨m, i1, ?_, ?_, ?_⟩
  · intro hret
    rw [e1] at hret
    cases hb : (program_loop cfg b BD_ERROR_OK 0 addr size s.lock).1 with
    | false => exact (i3 hb).2.1
    | true => exact absurd hret (i4 hb).1
  · intro hret
    rw [e1] at hret
    rw [hc]
    cases hb : (program_loop cfg b BD_ERROR_OK 0 addr size s.lock).1 with
    | false => exact absurd (i3 hb).1 hret
    | true => exact (i4 hb).2
  · intro L
    rw [hcard, i5 L]
    unfold rel_index
    generalize ((window_sizes addr size).take m).sum = D at *
    by_cases c : addr ≤ L ∧ L < addr + D
    · rw [if_pos c, if_pos (by omega)]
      exact congrArg (fun x => merged_byte cfg (s.lock.card L) (b x)) (by omega)
    · rw [if_neg c, if_neg (by omega)]
      rfl

/-! ## erase followed by read -/

/-- What `erase` followed by `read` does achieve, for a sector device that never
fails, a request within the capacity and an erased range ending at or below
`2 ^ 32`: `read` of the range that `erase` writes, from
`floor(addr / EraseUnit) * EraseUnit` to
`ceil((floor(addr / EraseUnit) * EraseUnit + size) / EraseUnit) * EraseUnit`,
returns only 0xFF. For `addr` a multiple of the erase unit this is the covering
range of `[addr, addr + size)`; for other addresses it can end one unit early. -/
theorem erase_then_read_all_ff (cfg : Config) (addr size capacity : Nat) (out : Nat → Nat)
    (s : Dev) (hEU : 0 < cfg.NU_SDH_FLASH_SECTOR_SIZE) (hs : never_fails s)
    (hcap : addr + size ≤ capacity) (hrep : capacity + cfg.NU_SDH_FLASH_SECTOR_SIZE ≤ 2 ^ 64)
    (h4G : unit_ceil cfg (unit_floor cfg addr + size) ≤ 2 ^ 32) :
    (erase cfg addr size s).1 = BD_ERROR_OK ∧
    (read out (unit_floor cfg addr)
      (unit_ceil cfg (unit_floor cfg addr + size) - unit_floor cfg addr)
      (erase cfg addr size s).2).1 = BD_ERROR_OK ∧
    ∀ i, i < unit_ceil cfg (unit_floor cfg addr + size) - unit_floor cfg addr →
      (read out (unit_floor cfg addr)
        (unit_ceil cfg (unit_floor cfg addr + size) - unit_floor cfg addr)
        (erase cfg addr size s).2).2.1 i = 0xFF := by
  obtain ⟨e1, e2, _, e4⟩ := erase_ok cfg addr size s hs hEU (by omega)
  have hs1 : never_fails (erase cfg addr size s).2 := fun k => by
    rw [e4]
    exact hs k
  have hle := le_unit_ceil cfg hEU (unit_floor cfg addr + size)
  obtain ⟨r1, r2⟩ := read_below_4GiB out (unit_floor cfg addr)
    (unit_ceil cfg (unit_floor cfg addr + size) - unit_floor cfg addr) _ hs1 (by omega)
  refine ⟨e1, r1, ?_⟩
  intro i hi
  rw [r2 i hi, e2]
  unfold unit_ceil unit_floor at hi
  unfold unit_floor
  rw [if_pos (by omega)]

/-- Example of `erase_then_read_all_ff`: `erase(4095, 2)` with erase unit 4096 on
`sample_dev`, an 8 GiB card; the range read back is `[0, 4096)`. -/
theorem erase_then_read_all_ff_witness :
    0 < default_config.NU_SDH_FLASH_SECTOR_SIZE ∧ never_fails sample_dev ∧
    4095 + 2 ≤ 2 ^ 33 ∧ 2 ^ 33 + default_config.NU_SDH_FLASH_SECTOR_SIZE ≤ 2 ^ 64 ∧
    unit_ceil default_config (unit_floor default_config 4095 + 2) ≤ 2 ^ 32 ∧
    (erase default_config 4095 2 sample_dev).1 = BD_ERROR_OK ∧
    (read (fun _ => 0) (unit_floor default_config 4095)
      (unit_ceil default_config (unit_floor default_config 4095 + 2)
        - unit_floor default_config 4095)
      (erase default_config 4095 2 sample_dev).2).1 = BD_ERROR_OK ∧
    ∀ i, i < unit_ceil default_config (unit_floor default_config 4095 + 2)
        - unit_floor default_config 4095 →
      (read (fun _ => 0) (unit_floor default_config 4095)
        (unit_ceil default_config (unit_floor default_config 4095 + 2)
          - unit_floor default_config 4095)
        (erase default_config 4095 2 sample_dev).2).2.1 i = 0xFF :=
  ⟨by decide, fun _ => rfl, by decide, by decide, by decide,
    erase_then_read_all_ff default_config 4095 2 (2 ^ 33) (fun _ => 0) sample_dev (by decide)
      (fun _ => rfl) (by decide) (by decide) (by decide)⟩

/-! ## Main results -/

/-- C1: with the program attribute off (overwrite mode) and a sector device that
never fails, `program(data, addr, size)` followed by `read(out, addr, size)`
returns `BD_ERROR_OK` both times and `out[i] = data[i]` for every `i < size`,
for every address (aligned or not, whatever the card held before). The buffer
is an object of the 32-bit target, hence `size ≤ SIZE_MAX`. -/
theorem program_then_read_round_trip (cfg : Config) (hpol : cfg.NU_SDH_FLASH_PROG_ATR = false)
    (data out : Nat → Nat) (addr size : Nat) (s : Dev) (hs : never_fails s)
    (hbuf : size ≤ SIZE_MAX) :
    (program cfg data addr size s).1 = BD_ERROR_OK ∧
    (read out addr size (program cfg data addr size s).2).1 = BD_ERROR_OK ∧
    ∀ i, i < size → (read out addr size (program cfg data addr size s).2).2.1 i = data i := by
  have hsz : size ≤ 2 ^ 32 := by
    unfold SIZE_MAX at hbuf
    omega
  obtain ⟨p1, p2, _, p4⟩ := program_ok cfg data addr size s hs hsz
  have hs2 : never_fails (program cfg data addr size s).2 := fun k => by
    rw [p4]
    exact hs k
  obtain ⟨r1, r2, _, _, _⟩ := read_ok out addr size (program cfg data addr size s).2 hs2
  refine ⟨p1, r1, ?_⟩
  intro i hi
  rw [r2 i, if_pos hi, p2]
  have hidx : rel_index addr ((addr + i) % 2 ^ 32) = i := by
    unfold rel_index
    omega
  rw [hidx, if_pos ⟨by omega, hi⟩]
  unfold merged_byte
  rw [hpol]
  rfl

/-- Witness of C1: 2000 bytes written at the unaligned address 1000 of
`sample_dev` in overwrite mode are read back. -/
theorem program_then_read_round_trip_witness :
    never_fails sample_dev ∧ 2000 ≤ SIZE_MAX ∧
    (program overwrite_config (fun i => i % 256) 1000 2000 sample_dev).1 = BD_ERROR_OK ∧
    (read (fun _ => 0) 1000 2000
      (program overwrite_config (fun i => i % 256) 1000 2000 sample_dev).2).1 = BD_ERROR_OK ∧
    ∀ i, i < 2000 → (read (fun _ => 0) 1000 2000
      (program overwrite_config (fun i => i % 256) 1000 2000 sample_dev).2).2.1 i = i % 256 :=
  ⟨fun _ => rfl, by decide,
    program_then_read_round_trip overwrite_config rfl (fun i => i % 256) (fun _ => 0) 1000 2000
      sample_dev (fun _ => rfl) (by decide)⟩

/-- C2 (defect): with the program attribute on, `program` of one byte 0x00 at
address `2 ^ 32` of a working card of 0xFF bytes returns `BD_ERROR_OK`, leaves
the byte at `2 ^ 32` at 0xFF although `0xFF AND 0x00 = 0x00`, and clears the byte
at address 0 instead: the sector address is formed in `uint32_t`. -/
theorem program_and_merge_above_4GiB :
    (program default_config (fun _ => 0) (2 ^ 32) 1 erased_dev).1 = BD_ERROR_OK ∧
    (program default_config (fun _ => 0) (2 ^ 32) 1 erased_dev).2.card (2 ^ 32) = 0xFF ∧
    erased_dev.card (2 ^ 32) &&& 0 = 0 ∧
    (program default_config (fun _ => 0) (2 ^ 32) 1 erased_dev).2.card 0 = 0 := by
  obtain ⟨p1, p2, _, _⟩ :=
    program_ok default_config (fun _ => 0) (2 ^ 32) 1 erased_dev (fun _ => rfl) (by norm_num)
  refine ⟨p1, ?_, by decide, ?_⟩
  · rw [p2, if_neg (by omega)]
    rfl
  · rw [p2, if_pos ⟨by norm_num, by decide⟩]
    decide

/-- C3 (defect): erase unit 4096, working card of 0x00 bytes, every call
returns `BD_ERROR_OK`.
(1) `erase(4095, 2)`: the covering range of `[4095, 4097)` is `[0, 8192)`, yet
the requested byte 4096 is still 0x00 on the card and `read(0, 8192)` returns
0x00 at offset 4096: the end of the erased range is computed from the rounded
start, `0 + 2`, not from `addr + size`.
(2) `erase(4095, 4096)`: of the requested bytes `[4095, 8191)` only byte 4095
is erased, byte 4096 is still 0x00.
(3) `erase(2 ^ 32, 4096)`, an aligned request, followed by `read(2 ^ 32, 4096)`
returns 0x00 at offset 0 although the card byte at `2 ^ 32` is 0xFF: `read`
addresses the card modulo `2 ^ 32`. -/
theorem erase_then_read_not_all_ff :
    (unit_floor default_config 4095 = 0 ∧ unit_ceil default_config (4095 + 2) = 8192 ∧
      (erase default_config 4095 2 zero_dev).1 = BD_ERROR_OK ∧
      (erase default_config 4095 2 zero_dev).2.card 4096 = 0 ∧
      (read (fun _ => 0xFF) 0 8192 (erase default_config 4095 2 zero_dev).2).1 = BD_ERROR_OK ∧
      (read (fun _ => 0xFF) 0 8192 (erase default_config 4095 2 zero_dev).2).2.1 4096 = 0) ∧
    (unit_ceil default_config (4095 + 4096) = 8192 ∧
      (erase default_config 4095 4096 zero_dev).1 = BD_ERROR_OK ∧
      (erase default_config 4095 4096 zero_dev).2.card 4095 = 0xFF ∧
      (erase default_config 4095 4096 zero_dev).2.card 4096 = 0) ∧
    (unit_floor default_config (2 ^ 32) = 2 ^ 32 ∧
      unit_ceil default_config (2 ^ 32 + 4096) = 2 ^ 32 + 4096 ∧
      (erase default_config (2 ^ 32) 4096 zero_dev).1 = BD_ERROR_OK ∧
      (erase default_config (2 ^ 32) 4096 zero_dev).2.card (2 ^ 32) = 0xFF ∧
      (read (fun _ => 0xFF) (2 ^ 32) 4096
        (erase default_config (2 ^ 32) 4096 zero_dev).2).1 = BD_ERROR_OK ∧
      (read (fun _ => 0xFF) (2 ^ 32) 4096
        (erase default_config (2 ^ 32) 4096 zero_dev).2).2.1 0 = 0) := by
  refine ⟨?_, ?_, ?_⟩
  · obtain ⟨e1, e2, _, e4⟩ := erase_ok default_config 4095 2 zero_dev (fun _ => rfl)
      (by decide) (by decide)
    have hs1 : never_fails (erase default_config 4095 2 zero_dev).2 := fun k => by
      rw [e4]
      rfl
    obtain ⟨r1, r2, _, _, _⟩ := read_ok (fun _ => 0xFF) 0 8192 _ hs1
    have hc : (erase default_config 4095 2 zero_dev).2.card 4096 = 0 := by
      rw [e2, if_neg (by decide)]
      rfl
    refine ⟨by decide, by decide, e1, hc, r1, ?_⟩
    rw [r2, if_pos (by norm_num), e2, if_neg (by decide)]
    rfl
  · obtain ⟨e1, e2, _, _⟩ := erase_ok default_config 4095 4096 zero_dev (fun _ => rfl)
      (by decide) (by decide)
    refine ⟨by decide, e1, ?_, ?_⟩
    · rw [e2, if_pos (by decide)]
    · rw [e2, if_neg (by decide)]
      rfl
  · obtain ⟨e1, e2, _, e4⟩ := erase_ok default_config (2 ^ 32) 4096 zero_dev (fun _ => rfl)
      (by decide) (by decide)
    have hs1 : never_fails (erase default_config (2 ^ 32) 4096 zero_dev).2 := fun k => by
      rw [e4]
      rfl
    obtain ⟨r1, r2, _, _, _⟩ := read_ok (fun _ => 0xFF) (2 ^ 32) 4096 _ hs1
    refine ⟨by decide, by decide, e1, ?_, r1, ?_⟩
    · rw [e2, if_pos (by decide)]
    · rw [r2, if_pos (by norm_num), e2, if_neg (by decide)]
      rfl

/-- C4 (defect): in overwrite mode, `program` of one byte 0x12 at address
`2 ^ 32` of a working card of 0xFF bytes changes the byte at address 0, which
lies outside `[2 ^ 32, 2 ^ 32 + 1)`, from 0xFF to 0x12. -/
theorem program_frame_above_4GiB :
    erased_dev.card 0 = 0xFF ∧
    (program overwrite_config (fun _ => 0x12) (2 ^ 32) 1 erased_dev).1 = BD_ERROR_OK ∧
    (program overwrite_config (fun _ => 0x12) (2 ^ 32) 1 erased_dev).2.card 0 = 0x12 := by
  obtain ⟨p1, p2, _, _⟩ :=
    program_ok overwrite_config (fun _ => 0x12) (2 ^ 32) 1 erased_dev (fun _ => rfl)
      (by norm_num)
  refine ⟨rfl, p1, ?_⟩
  rw [p2, if_pos ⟨by norm_num, by decide⟩]
  decide

/-- C5 (defect): erase unit at `2 ^ 32` of a working card of 0x00 bytes, program
attribute on. After `erase(2 ^ 32, 4096)` and `program([0xAB], 2 ^ 32, 1)`, all
successful, `read(2 ^ 32, 1)` succeeds and returns 0x00, not 0xAB, and
`read(2 ^ 32 + 1, 1)` returns 0x00, not 0xFF: `erase` addresses the card with the
64-bit address, `program` and `read` with the address reduced to `uint32_t`. -/
theorem erase_program_read_above_4GiB :
    (erase default_config (2 ^ 32) 4096 zero_dev).1 = BD_ERROR_OK ∧
    (program default_config (fun _ => 0xAB) (2 ^ 32) 1
      (erase default_config (2 ^ 32) 4096 zero_dev).2).1 = BD_ERROR_OK ∧
    (read (fun _ => 0) (2 ^ 32) 1 (program default_config (fun _ => 0xAB) (2 ^ 32) 1
      (erase default_config (2 ^ 32) 4096 zero_dev).2).2).1 = BD_ERROR_OK ∧
    (read (fun _ => 0) (2 ^ 32) 1 (program default_config (fun _ => 0xAB) (2 ^ 32) 1
      (erase default_config (2 ^ 32) 4096 zero_dev).2).2).2.1 0 = 0 ∧
    (read (fun _ => 0) (2 ^ 32 + 1) 1 (program default_config (fun _ => 0xAB) (2 ^ 32) 1
      (erase default_config (2 ^ 32) 4096 zero_dev).2).2).2.1 0 = 0 := by
  obtain ⟨e1, e2, _, e4⟩ := erase_ok default_config (2 ^ 32) 4096 zero_dev (fun _ => rfl)
    (by decide) (by decide)
  have hs1 : never_fails (erase default_config (2 ^ 32) 4096 zero_dev).2 := fun k => by
    rw [e4]
    rfl
  obtain ⟨p1, p2, _, p4⟩ := program_ok default_config (fun _ => 0xAB) (2 ^ 32) 1
    (erase default_config (2 ^ 32) 4096 zero_dev).2 hs1 (by norm_num)
  have hs2 : never_fails (program default_config (fun _ => 0xAB) (2 ^ 32) 1
      (erase default_config (2 ^ 32) 4096 zero_dev).2).2 := fun k => by
    rw [p4]
    exact hs1 k
  obtain ⟨r1, r2, _, _, _⟩ := read_ok (fun _ => 0) (2 ^ 32) 1 _ hs2
  obtain ⟨_, r2b, _, _, _⟩ := read_ok (fun _ => 0) (2 ^ 32 + 1) 1 _ hs2
  refine ⟨e1, p1, r1, ?_, ?_⟩
  · rw [r2, if_pos (by norm_num), p2, if_pos ⟨by norm_num, by decide⟩, e2,
      if_neg (by decide)]
    decide
  · rw [r2b, if_pos (by norm_num), p2, if_neg (by decide), e2, if_neg (by decide)]
    decide

/-- C6 (defect): on a working card holding 0xAA below `2 ^ 32` and 0x55 from
`2 ^ 32` on, `read` of one byte at address `2 ^ 32` returns `BD_ERROR_OK` and the
byte 0xAA stored at address 0, not the byte 0x55 stored at `2 ^ 32`. -/
theorem read_above_4GiB :
    large_dev.card (2 ^ 32) = 0x55 ∧
    (read (fun _ => 0) (2 ^ 32) 1 large_dev).1 = BD_ERROR_OK ∧
    (read (fun _ => 0) (2 ^ 32) 1 large_dev).2.1 0 = 0xAA := by
  obtain ⟨r1, r2, _, _, _⟩ := read_ok (fun _ => 0) (2 ^ 32) 1 large_dev (fun _ => rfl)
  refine ⟨by decide, r1, ?_⟩
  rw [r2, if_pos (by norm_num)]
  decide

/-- C7 (defect): on a card whose sector device fails, `program`, `read` and
`erase`, entered with the lock free (`_lock = 0`), each return the device error
with `_lock = 1`: the early `return err;` skips `_lock.unlock()`. -/
theorem lock_held_after_failed_call :
    failing_dev._lock = 0 ∧
    (program default_config (fun _ => 0) 0 1 failing_dev).1 = BD_ERROR_DEVICE_ERROR ∧
    (program default_config (fun _ => 0) 0 1 failing_dev).2._lock = 1 ∧
    (read (fun _ => 0) 0 1 failing_dev).1 = BD_ERROR_DEVICE_ERROR ∧
    (read (fun _ => 0) 0 1 failing_dev).2.2._lock = 1 ∧
    (erase default_config 0 4096 failing_dev).1 = BD_ERROR_DEVICE_ERROR ∧
    (erase default_config 0 4096 failing_dev).2._lock = 1 := by
  have hf : failing_dev.sd_status failing_dev.trace.length ≠ BD_ERROR_OK := by decide
  obtain ⟨a1, a2⟩ := program_first_call_fails default_config (fun _ => 0) 0 1 failing_dev
    (by decide) hf
  obtain ⟨b1, b2⟩ := read_first_call_fails (fun _ => 0) 0 1 failing_dev (by decide) hf
  obtain ⟨c1, c2⟩ := erase_first_call_fails default_config 0 4096 failing_dev (by decide) hf
  exact ⟨rfl, a1, a2, b1, b2, c1, c2⟩

/-- C8: for `program`, `read` and `erase`, under any schedule of sector device
failures: the calls the operation made extend the trace and carry the statuses
the device returned; a call that failed is the last call the operation made and
its status is the value returned (the first failure ends the operation at once,
with exactly that code, and no further window or sector is attempted); and the
operation returns `BD_ERROR_OK` if and only if every call it made succeeded. -/
theorem first_failure_aborts_operation (cfg : Config) (b out : Nat → Nat) (addr size : Nat)
    (s : Dev) :
    ((program cfg b addr size s).2.trace = s.trace ++ calls_made s (program cfg b addr size s).2 ∧
      calls_follow_schedule s (calls_made s (program cfg b addr size s).2) ∧
      first_failure_aborts (calls_made s (program cfg b addr size s).2)
        (program cfg b addr size s).1) ∧
    ((read out addr size s).2.2.trace = s.trace ++ calls_made s (read out addr size s).2.2 ∧
      calls_follow_schedule s (calls_made s (read out addr size s).2.2) ∧
      first_failure_aborts (calls_made s (read out addr size s).2.2)
        (read out addr size s).1) ∧
    ((erase cfg addr size s).2.trace = s.trace ++ calls_made s (erase cfg addr size s).2 ∧
      calls_follow_schedule s (calls_made s (erase cfg addr size s).2) ∧
      first_failure_aborts (calls_made s (erase cfg addr size s).2)
        (erase cfg addr size s).1) := by
  refine ⟨?_, ?_, ?_⟩
  · obtain ⟨calls, h1, h2, h3⟩ := program_loop_calls cfg b size 0 addr s.lock
    obtain ⟨e1, e2⟩ := program_trace_ret cfg b addr size s
    rw [← e1] at h2
    exact abort_of_loop s s.lock _ _ calls _ rfl rfl (by rw [e2, h1]) h2 h3
  · obtain ⟨calls, h1, h2, h3⟩ := read_loop_calls size out 0 addr s.lock
    obtain ⟨e1, e2⟩ := read_trace_ret out addr size s
    rw [← e1] at h2
    exact abort_of_loop s s.lock _ _ calls _ rfl rfl (by rw [e2, h1]) h2 h3
  · obtain ⟨calls, h1, h2, h3⟩ := erase_loop_calls _ (erase_addr_pos cfg addr)
      (erase_addr_end cfg addr size)
      ⟨mul_u64_erase_unit_aligned cfg _, mul_u64_erase_unit_aligned cfg _,
        Nat.mod_lt _ (by norm_num)⟩
      { s.lock with dma_buff := memset s.lock.dma_buff 0 0xFF SDH_SECTOR_SIZE } rfl
    have e : (erase cfg addr size s).1 = (erase_loop BD_ERROR_OK (erase_addr_pos cfg addr)
          (erase_addr_end cfg addr size)
          ⟨mul_u64_erase_unit_aligned cfg _, mul_u64_erase_unit_aligned cfg _,
            Nat.mod_lt _ (by norm_num)⟩
          { s.lock with dma_buff := memset s.lock.dma_buff 0 0xFF SDH_SECTOR_SIZE }).2.1 ∧
        (erase cfg addr size s).2.trace = (erase_loop BD_ERROR_OK (erase_addr_pos cfg addr)
          (erase_addr_end cfg addr size)
          ⟨mul_u64_erase_unit_aligned cfg _, mul_u64_erase_unit_aligned cfg _,
            Nat.mod_lt _ (by norm_num)⟩
          { s.lock with dma_buff := memset s.lock.dma_buff 0 0xFF SDH_SECTOR_SIZE }).2.2.trace := by
      unfold erase
      simp only []
      split <;> exact ⟨rfl, rfl⟩
    obtain ⟨e1, e2⟩ := e
    rw [← e1] at h2
    exact abort_of_loop s
      { s.lock with dma_buff := memset s.lock.dma_buff 0 0xFF SDH_SECTOR_SIZE } _ _ calls _
      rfl rfl (by rw [e2, h1]) h2 h3

/-- C9: for `addr` a multiple of the erase unit, a request within the capacity
and a sector device that never fails, `erase(addr, size)` succeeds and every
byte of `[addr, ceil((addr + size) / EraseUnit) * EraseUnit)` is 0xFF afterwards,
whatever the card held and whatever the program attribute. -/
theorem erase_aligned_sets_ff (cfg : Config) (addr size capacity : Nat) (s : Dev)
    (hEU : 0 < cfg.NU_SDH_FLASH_SECTOR_SIZE) (halign : addr % cfg.NU_SDH_FLASH_SECTOR_SIZE = 0)
    (hs : never_fails s) (hcap : addr + size ≤ capacity)
    (hrep : capacity + cfg.NU_SDH_FLASH_SECTOR_SIZE ≤ 2 ^ 64) :
    (erase cfg addr size s).1 = BD_ERROR_OK ∧
    ∀ L, addr ≤ L → L < unit_ceil cfg (addr + size) →
      (erase cfg addr size s).2.card L = 0xFF := by
  obtain ⟨e1, e2, _, _⟩ := erase_ok cfg addr size s hs hEU (by omega)
  refine ⟨e1, ?_⟩
  intro L h1 h2
  have ha : addr / cfg.NU_SDH_FLASH_SECTOR_SIZE * cfg.NU_SDH_FLASH_SECTOR_SIZE = addr :=
    Nat.div_mul_cancel (Nat.dvd_of_mod_eq_zero halign)
  rw [e2, ha]
  unfold unit_ceil at h2
  rw [if_pos ⟨h1, h2⟩]

/-- Witness of C9: `erase(8192, 100)` with erase unit 4096 on `zero_dev`, an
8 GiB card of 0x00 bytes, in overwrite mode: `[8192, 12288)` becomes 0xFF. -/
theorem erase_aligned_sets_ff_witness :
    0 < overwrite_config.NU_SDH_FLASH_SECTOR_SIZE ∧
    8192 % overwrite_config.NU_SDH_FLASH_SECTOR_SIZE = 0 ∧ never_fails zero_dev ∧
    8192 + 100 ≤ 2 ^ 33 ∧ 2 ^ 33 + overwrite_config.NU_SDH_FLASH_SECTOR_SIZE ≤ 2 ^ 64 ∧
    unit_ceil overwrite_config (8192 + 100) = 12288 ∧
    (erase overwrite_config 8192 100 zero_dev).1 = BD_ERROR_OK ∧
    ∀ L, 8192 ≤ L → L < unit_ceil overwrite_config (8192 + 100) →
      (erase overwrite_config 8192 100 zero_dev).2.card L = 0xFF :=
  ⟨by decide, by decide, fun _ => rfl, by decide, by decide, by decide,
    erase_aligned_sets_ff overwrite_config 8192 100 (2 ^ 33) zero_dev (by decide) (by decide)
      (fun _ => rfl) (by decide) (by decide)⟩

/-- C10: `get_read_size()` and `get_program_size()` are 1, `get_erase_size()` is
the configured erase unit, which is a multiple of `get_program_size()` and of the
sector size 512, and `get_erase_size(addr)` equals `get_erase_size()` for every
address. -/
theorem geometry (cfg : Config) :
    get_read_size = 1 ∧ get_program_size = 1 ∧
    get_erase_size cfg = cfg.NU_SDH_FLASH_SECTOR_SIZE ∧
    get_erase_size cfg % get_program_size = 0 ∧
    SDH_SECTOR_SIZE = 512 ∧ get_erase_size cfg % SDH_SECTOR_SIZE = 0 ∧
    ∀ addr, get_erase_size_at cfg addr = get_erase_size cfg :=
  ⟨rfl, rfl, rfl, Nat.mod_one _, rfl, cfg.static_assert_flash_sector, fun _ => rfl⟩

/-- C11 (defect): for the window at `addr_pos = 2 ^ 32` with one byte left, the
covering sector starts at `floor(2 ^ 32 / 512) * 512 = 2 ^ 32`, but the byte
address passed to the sector device is 0: `read(2 ^ 32, 1)` makes the single call
`NuSDBlockDevice::read(0, 512)` and `program(2 ^ 32, 1)` the calls
`NuSDBlockDevice::read(0, 512)`, `NuSDBlockDevice::program(0, 512)`. The length
512 is the one of the formula. -/
theorem device_address_above_4GiB :
    2 ^ 32 / 512 * 512 = 2 ^ 32 ∧
    ((2 ^ 32 + todo_size (2 ^ 32) 1 + 511) / 512 - 2 ^ 32 / 512) * 512 = 512 ∧
    window_addr (2 ^ 32) = 0 ∧ window_len (2 ^ 32) 1 = 512 ∧
    calls_made large_dev (read (fun _ => 0) (2 ^ 32) 1 large_dev).2.2 =
      [⟨false, 0, 512, BD_ERROR_OK⟩] ∧
    calls_made large_dev (program default_config (fun _ => 0) (2 ^ 32) 1 large_dev).2 =
      [⟨false, 0, 512, BD_ERROR_OK⟩, ⟨true, 0, 512, BD_ERROR_OK⟩] := by
  have ha : window_addr (2 ^ 32) = 0 := by decide
  have hl : window_len (2 ^ 32) 1 = 512 := window_len_eq _ _ (by decide)
  have h1 := read_single_window (fun _ => 0) (2 ^ 32) 1 large_dev (by decide) (by decide) rfl
  have h2 := program_single_window default_config (fun _ => 0) (2 ^ 32) 1 large_dev
    (by decide) (by decide) rfl rfl
  rw [ha, hl] at h1 h2
  exact ⟨by decide, by decide, ha, hl, h1, h2⟩

/-- C12: for every address and size, `erase(addr, size)` leaves every card byte
outside the covering range
`[floor(addr / EraseUnit) * EraseUnit, ceil((addr + size) / EraseUnit) * EraseUnit)`
at its value from before the call, for any schedule of device failures (the call
succeeds or is left at the first failed write). -/
theorem erase_frame (cfg : Config) (addr size : Nat) (s : Dev) (haddr : addr < 2 ^ 64)
    (L : Nat) (hL : ¬(unit_floor cfg addr ≤ L ∧ L < unit_ceil cfg (addr + size))) :
    (erase cfg addr size s).2.card L = s.card L := by
  obtain ⟨_, _, e3⟩ := erase_trace_ret cfg addr size s
  have hp := erase_addr_pos_eq cfg addr haddr
  have he := erase_addr_end_le_ceil cfg addr size haddr
  unfold unit_floor at hL
  rw [e3, erase_loop_frame _ _ _ _ _ rfl L (by rw [hp]; omega)]
  rfl

/-- Witness of C12: `erase(4095, 2)` with erase unit 4096 on a card whose sector
device fails on every call leaves byte 8192, just outside the covering range
`[0, 8192)`. -/
theorem erase_frame_witness :
    4095 < 2 ^ 64 ∧
    ¬(unit_floor default_config 4095 ≤ 8192 ∧ 8192 < unit_ceil default_config (4095 + 2)) ∧
    (erase default_config 4095 2 failing_dev).2.card 8192 = failing_dev.card 8192 :=
  ⟨by decide, by decide, erase_frame default_config 4095 2 failing_dev (by decide) 8192
    (by decide)⟩

/-- C13: in every window of `read` and `program`, for every address and every
remaining size other than 0: the window length satisfies
`1 ≤ todo_size = min(rmn, DMA_BUFF_SIZE - addr_pos mod 512)`, the slice
`[sector_offset, sector_offset + todo_size)` lies inside the staging buffer, and
the sector range `(end_sector - begin_sector) * 512` passed to the device is at
most `DMA_BUFF_SIZE`. -/
theorem window_fits_staging_buffer (addr_pos rmn : Nat) (hr : rmn ≠ 0) :
    1 ≤ todo_size addr_pos rmn ∧
    todo_size addr_pos rmn = min rmn (DMA_BUFF_SIZE - addr_pos % 512) ∧
    sector_offset addr_pos + todo_size addr_pos rmn ≤ DMA_BUFF_SIZE ∧
    sub_u32 (end_sector addr_pos rmn) (begin_sector addr_pos) * SDH_SECTOR_SIZE
      ≤ DMA_BUFF_SIZE ∧
    window_len addr_pos rmn ≤ DMA_BUFF_SIZE := by
  have h1 := todo_size_pos addr_pos rmn hr
  have h2 := todo_size_eq addr_pos rmn
  have h3 := sector_offset_eq addr_pos
  have h4 := window_len_eq addr_pos rmn hr
  have h5 : sub_u32 (end_sector addr_pos rmn) (begin_sector addr_pos) = 1 := by
    unfold sub_u32 end_sector begin_sector add_u64 sub_u64 to_u32
    rw [h2]
    unfold SDH_SECTOR_SIZE
    omega
  rw [h5, h4, h3]
  unfold DMA_BUFF_SIZE SDH_SECTOR_SIZE
  refine ⟨h1, h2, ?_, ?_, ?_⟩ <;> omega

/-- Witness of C13: the window at address `2 ^ 32 + 1000` with 2000 bytes left. -/
theorem window_fits_staging_buffer_witness :
    2000 ≠ 0 ∧
    1 ≤ todo_size (2 ^ 32 + 1000) 2000 ∧
    todo_size (2 ^ 32 + 1000) 2000 = min 2000 (DMA_BUFF_SIZE - (2 ^ 32 + 1000) % 512) ∧
    sector_offset (2 ^ 32 + 1000) + todo_size (2 ^ 32 + 1000) 2000 ≤ DMA_BUFF_SIZE ∧
    sub_u32 (end_sector (2 ^ 32 + 1000) 2000) (begin_sector (2 ^ 32 + 1000)) * SDH_SECTOR_SIZE
      ≤ DMA_BUFF_SIZE ∧
    window_len (2 ^ 32 + 1000) 2000 ≤ DMA_BUFF_SIZE :=
  ⟨by decide, window_fits_staging_buffer (2 ^ 32 + 1000) 2000 (by decide)⟩

/-- C14: every sector device read or write issued by `program`, `read` or
`erase`, for every caller address and size and for any schedule of device
failures, has a byte address that is a multiple of 512 and a length that is a
non-zero multiple of 512. For `erase` this rests on the `static_assert` that the
erase unit is a multiple of 512, carried by the configuration. -/
theorem device_calls_sector_aligned (cfg : Config) (b out : Nat → Nat) (addr size : Nat)
    (s : Dev) :
    SDH_SECTOR_SIZE = 512 ∧
    (∀ c ∈ calls_made s (program cfg b addr size s).2, sector_aligned_call c) ∧
    (∀ c ∈ calls_made s (read out addr size s).2.2, sector_aligned_call c) ∧
    (∀ c ∈ calls_made s (erase cfg addr size s).2, sector_aligned_call c) := by
  refine ⟨rfl, ?_, ?_, ?_⟩
  · obtain ⟨calls, h1, h2⟩ := program_loop_calls_aligned cfg b size 0 addr s.lock
    obtain ⟨_, e2⟩ := program_trace_ret cfg b addr size s
    rw [calls_made_of_append s s.lock _ calls rfl (by rw [e2, h1])]
    exact h2
  · obtain ⟨calls, h1, h2⟩ := read_loop_calls_aligned size out 0 addr s.lock
    obtain ⟨_, e2⟩ := read_trace_ret out addr size s
    rw [calls_made_of_append s s.lock _ calls rfl (by rw [e2, h1])]
    exact h2
  · obtain ⟨calls, h1, h2⟩ := erase_loop_calls_aligned _ (erase_addr_pos cfg addr)
      (erase_addr_end cfg addr size)
      ⟨mul_u64_erase_unit_aligned cfg _, mul_u64_erase_unit_aligned cfg _,
        Nat.mod_lt _ (by norm_num)⟩
      { s.lock with dma_buff := memset s.lock.dma_buff 0 0xFF SDH_SECTOR_SIZE } rfl
    obtain ⟨_, e2, _⟩ := erase_trace_ret cfg addr size s
    rw [calls_made_of_append s
      { s.lock with dma_buff := memset s.lock.dma_buff 0 0xFF SDH_SECTOR_SIZE } _ calls rfl
      (by rw [e2, h1])]
    exact h2

/-- C15 (defect): overwrite mode, card of 0xFF bytes whose sector device fails on
its third call. `program` of 513 bytes 0x12 at address `2 ^ 32` has two windows,
`[2 ^ 32, 2 ^ 32 + 512)` and `[2 ^ 32 + 512, 2 ^ 32 + 513)`; it is left at the
failed device read of window 2 (three calls made) with the device error. The
byte at `2 ^ 32`, a byte of window 1, is still 0xFF and not the merged 0x12;
window 1 was written to the bytes from address 0 instead. -/
theorem program_abort_above_4GiB :
    window_sizes (2 ^ 32) 513 = [512, 1] ∧
    (program overwrite_config (fun _ => 0x12) (2 ^ 32) 513 abort_dev).1 = BD_ERROR_DEVICE_ERROR ∧
    (calls_made abort_dev
      (program overwrite_config (fun _ => 0x12) (2 ^ 32) 513 abort_dev).2).length = 3 ∧
    (program overwrite_config (fun _ => 0x12) (2 ^ 32) 513 abort_dev).2.card (2 ^ 32) = 0xFF ∧
    (program overwrite_config (fun _ => 0x12) (2 ^ 32) 513 abort_dev).2.card 0 = 0x12 := by
  have ht : todo_size (2 ^ 32) 513 = 512 := by decide
  have hw : window_sizes (2 ^ 32) 513 = [512, 1] := by
    rw [window_sizes_cons _ _ (by decide), ht, window_sizes_cons _ _ (by decide)]
    have ht2 : todo_size (add_u64 (2 ^ 32) 512) (513 - 512) = 1 := by decide
    rw [ht2, window_sizes_zero]
  obtain ⟨s2, h1, h2, h3, _, h5⟩ := program_loop_window_ok overwrite_config (fun _ => 0x12) 0
    (2 ^ 32) 513 abort_dev.lock (by decide) rfl rfl
  rw [ht] at h1 h2
  have hlen : s2.trace.length = 2 := by
    rw [h3]
    rfl
  have hf : s2.sd_status s2.trace.length ≠ BD_ERROR_OK := by
    rw [h5, hlen]
    decide
  have hst : s2.sd_status s2.trace.length = BD_ERROR_DEVICE_ERROR := by
    rw [h5, hlen]
    rfl
  rw [program_loop_read_fails overwrite_config (fun _ => 0x12) (0 + 512)
    (add_u64 (2 ^ 32) 512) (513 - 512) s2 (by decide) hf] at h1
  refine ⟨hw, ?_, ?_, ?_, ?_⟩
  · simp only [program, h1, if_true]
    exact hst
  · simp only [program, h1, if_true, calls_made]
    rw [h3]
    rfl
  · simp only [program, h1, if_true]
    rw [h2, if_neg (by decide)]
    rfl
  · simp only [program, h1, if_true]
    rw [h2, if_pos (by decide)]
    rfl

/-- C16: for every address and every size the window loops of `read` and
`program` terminate (the two loops are total functions). Each iteration takes
`todo_size ≥ 1` bytes, so the remaining count strictly decreases; the window
lengths sum to `size`; the number of windows is the number of 512-byte sectors
that intersect `[addr, addr + size)`; and when the sector device does not fail,
`read` and `program` return `BD_ERROR_OK` after exactly that many device reads
(`program` also makes that many device writes). -/
theorem window_loops_terminate (cfg : Config) (b out : Nat → Nat) (addr size : Nat) (s : Dev)
    (hs : never_fails s) :
    (∀ addr_pos rmn, rmn ≠ 0 →
      1 ≤ todo_size addr_pos rmn ∧ rmn - todo_size addr_pos rmn < rmn) ∧
    (window_sizes addr size).sum = size ∧
    (window_sizes addr size).length = sectors_touched addr size ∧
    (read out addr size s).1 = BD_ERROR_OK ∧
    (calls_made s (read out addr size s).2.2).length = sectors_touched addr size ∧
    (∀ c ∈ calls_made s (read out addr size s).2.2, c.is_program = false) ∧
    (program cfg b addr size s).1 = BD_ERROR_OK ∧
    ((calls_made s (program cfg b addr size s).2).filter (fun c => !c.is_program)).length
      = sectors_touched addr size ∧
    ((calls_made s (program cfg b addr size s).2).filter (fun c => c.is_program)).length
      = sectors_touched addr size := by
  have hlen : (window_sizes addr size).length = sectors_touched addr size := by
    rw [window_sizes_length, sectors_touched_eq]
  obtain ⟨_, r2, rcalls, r3, r4, r5⟩ := read_loop_call_count size out 0 addr s.lock
    (fun k => hs k)
  obtain ⟨re1, re2⟩ := read_trace_ret out addr size s
  obtain ⟨_, p2, pcalls, p3, p4, p5⟩ := program_loop_call_count cfg b size 0 addr s.lock
    (fun k => hs k)
  obtain ⟨pe1, pe2⟩ := program_trace_ret cfg b addr size s
  have hr := calls_made_of_append s s.lock (read out addr size s).2.2 rcalls rfl
    (by rw [re2, r3])
  have hp := calls_made_of_append s s.lock (program cfg b addr size s).2 pcalls rfl
    (by rw [pe2, p3])
  refine ⟨?_, window_sizes_sum size addr, hlen, by rw [re1, r2], by rw [hr, r4, hlen],
    by rw [hr]; exact r5, by rw [pe1, p2], by rw [hp, p4, hlen], by rw [hp, p5, hlen]⟩
  intro addr_pos rmn hr0
  have h1 := todo_size_pos addr_pos rmn hr0
  omega

/-- Witness of C16: 2000 bytes at the unaligned address 1000 of `sample_dev`
(sectors 1 to 5). -/
theorem window_loops_terminate_witness :
    never_fails sample_dev ∧ sectors_touched 1000 2000 = 5 ∧
    (∀ addr_pos rmn, rmn ≠ 0 →
      1 ≤ todo_size addr_pos rmn ∧ rmn - todo_size addr_pos rmn < rmn) ∧
    (window_sizes 1000 2000).sum = 2000 ∧
    (window_sizes 1000 2000).length = sectors_touched 1000 2000 ∧
    (read (fun _ => 0) 1000 2000 sample_dev).1 = BD_ERROR_OK ∧
    (calls_made sample_dev (read (fun _ => 0) 1000 2000 sample_dev).2.2).length
      = sectors_touched 1000 2000 ∧
    (∀ c ∈ calls_made sample_dev (read (fun _ => 0) 1000 2000 sample_dev).2.2,
      c.is_program = false) ∧
    (program default_config (fun _ => 0) 1000 2000 sample_dev).1 = BD_ERROR_OK ∧
    ((calls_made sample_dev (program default_config (fun _ => 0) 1000 2000 sample_dev).2).filter
      (fun c => !c.is_program)).length = sectors_touched 1000 2000 ∧
    ((calls_made sample_dev (program default_config (fun _ => 0) 1000 2000 sample_dev).2).filter
      (fun c => c.is_program)).length = sectors_touched 1000 2000 :=
  ⟨fun _ => rfl, by decide,
    window_loops_terminate default_config (fun _ => 0) (fun _ => 0) 1000 2000 sample_dev
      (fun _ => rfl)⟩

/-- C17: for every address, `program`, `read` and `erase` called with size 0
return `BD_ERROR_OK`, make no sector device call and leave the card (and the
lock) as they were; `program` and `read` leave the whole state unchanged. For
`erase` this holds wherever the address lies inside its erase unit. -/
theorem size_zero_is_noop (cfg : Config) (b out : Nat → Nat) (addr : Nat) (s : Dev)
    (haddr : addr < 2 ^ 64) :
    program cfg b addr 0 s = (BD_ERROR_OK, s) ∧
    read out addr 0 s = (BD_ERROR_OK, out, s) ∧
    (erase cfg addr 0 s).1 = BD_ERROR_OK ∧
    calls_made s (erase cfg addr 0 s).2 = [] ∧
    (erase cfg addr 0 s).2.trace = s.trace ∧
    (erase cfg addr 0 s).2.card = s.card ∧
    (erase cfg addr 0 s).2._lock = s._lock := by
  obtain ⟨e1, e2, e3, e4, _⟩ := erase_size_zero cfg addr s haddr
  refine ⟨program_size_zero cfg b addr s, read_size_zero out addr s, e1, ?_, e3, e2, e4⟩
  unfold calls_made
  rw [e3]
  exact List.drop_length _

/-- Witness of C17: size 0 at address 100, strictly inside the first erase unit
of `zero_dev`. -/
theorem size_zero_is_noop_witness :
    100 < 2 ^ 64 ∧ 100 % default_config.NU_SDH_FLASH_SECTOR_SIZE ≠ 0 ∧
    program default_config (fun _ => 0) 100 0 zero_dev = (BD_ERROR_OK, zero_dev) ∧
    read (fun _ => 0) 100 0 zero_dev = (BD_ERROR_OK, fun _ => 0, zero_dev) ∧
    (erase default_config 100 0 zero_dev).1 = BD_ERROR_OK ∧
    calls_made zero_dev (erase default_config 100 0 zero_dev).2 = [] ∧
    (erase default_config 100 0 zero_dev).2.trace = zero_dev.trace ∧
    (erase default_config 100 0 zero_dev).2.card = zero_dev.card ∧
    (erase default_config 100 0 zero_dev).2._lock = zero_dev._lock :=
  ⟨by decide, by decide,
    size_zero_is_noop default_config (fun _ => 0) (fun _ => 0) 100 zero_dev (by decide)⟩

end NuSDFlashSim
